import Mathlib

/-!
Verification of the mejiku color-Sudoku core logic.

The repository contains two near-duplicate game-logic modules exporting the
same names (`generatePuzzle`, `checkWin`, `checkPlacement`, ...).  We embed
the first module in namespace `GameLogic1` and the second in `GameLogic2`,
and the player-facing component handlers in namespace `UIOps`.

Modelling conventions:
* `Cell` mirrors `{ value: number | null; isFixed: boolean }` with color
  values restricted to the nine colors `Fin 9` actually used by the game.
* `Grid` (a 9×9 matrix of cells) is a total function `Fin 9 → Fin 9 → Cell`.
* In-place mutation of the shared grid during backtracking is embedded by
  explicit state passing: each search function returns its result together
  with the final state of the grid (suffix `S`/`F` versions).
* `Math.random()`-driven shuffles are parameterised by an explicit tape
  `tape : Nat → Nat` together with a read position; `Math.floor(Math.random()
  * (i + 1))` becomes `tape k % (i + 1)`, which ranges over exactly the same
  set of outcomes.
* General recursion on the shrinking set of empty cells is embedded by
  structural recursion on a fuel argument, always instantiated with
  `numEmpty g` (the number of empty cells), which is proved sufficient.
-/

set_option maxRecDepth 2000
set_option linter.constructorNameAsVariable false

/-- One grid cell: an optional color index 0..8 and a fixed flag. -/
structure Cell where
  value : Option (Fin 9)
  isFixed : Bool
deriving DecidableEq, Repr

/-- The 9×9 grid, row-major: `g r c` is the cell at row `r`, column `c`. -/
def Grid : Type := Fin 9 → Fin 9 → Cell

instance : DecidableEq Grid := by
  unfold Grid
  infer_instance

/-- Embedding of `createEmptyGrid` from both modules: all cells `{value: null, isFixed: false}`. -/
def createEmptyGrid : Grid := fun _ _ => ⟨none, false⟩

/-- Embedding of the statement `grid[r][c].value = v` (mutation of one
cell's value field; `isFixed` is untouched). -/
def writeVal (g : Grid) (r c : Fin 9) (v : Option (Fin 9)) : Grid :=
  fun r' c' => if r' = r ∧ c' = c then ⟨v, (g r c).isFixed⟩ else g r' c'

/-- Embedding of the statement `grid[r][c].isFixed = b`. -/
def writeFixed (g : Grid) (r c : Fin 9) (b : Bool) : Grid :=
  fun r' c' => if r' = r ∧ c' = c then ⟨(g r c).value, b⟩ else g r' c'

/-- The set of empty cells of a grid. -/
def emptyCells (g : Grid) : Finset (Fin 9 × Fin 9) :=
  Finset.univ.filter (fun p => (g p.1 p.2).value = none)

/-- Number of empty cells; used as fuel for the backtracking recursions. -/
def numEmpty (g : Grid) : Nat := (emptyCells g).card

/-- Fisher–Yates swap `[a[i], a[j]] = [a[j], a[i]]` on a list (identity when
an index is out of range, which never happens on the calls we model). -/
def swapL {α : Type} (l : List α) (i j : Nat) : List α :=
  match l.get? i, l.get? j with
  | some x, some y => (l.set i y).set j x
  | _, _ => l

/-- The shuffle loop `for (i = n-1; i > 0; i--) { j = floor(rand()*(i+1)); swap }`,
counting `i` down; returns the shuffled list and the next tape position. -/
def shuffleF {α : Type} (tape : Nat → Nat) : Nat → Nat → List α → List α × Nat
  | k, 0, l => (l, k)
  | k, i + 1, l => shuffleF tape (k + 1) i (swapL l (i + 1) (tape k % (i + 2)))

/-- Fisher–Yates shuffle of a list, reading randomness from `tape` at
position `k`; both modules use this pattern verbatim. -/
def shuffle {α : Type} (tape : Nat → Nat) (k : Nat) (l : List α) : List α × Nat :=
  shuffleF tape k (l.length - 1) l

/-- Difficulty tiers. -/
inductive Difficulty where
  | easy
  | medium
  | hard
deriving DecidableEq, Repr

/-- The removal-target table `{ easy: 40, medium: 50, hard: 60 }`. -/
def cellsToRemove : Difficulty → Nat
  | .easy => 40
  | .medium => 50
  | .hard => 60

namespace GameLogic1

/-- Embedding of `isValid(grid, row, col, num)` of the first module: `num` appears nowhere
in row `row`, column `col`, or the 3×3 box containing `(row, col)`. -/
def isValid (g : Grid) (row col : Fin 9) (num : Fin 9) : Bool :=
  ((List.finRange 9).all fun x => !((g row x).value == some num)) &&
  ((List.finRange 9).all fun x => !((g x col).value == some num)) &&
  ((List.finRange 3).all fun i => (List.finRange 3).all fun j =>
    !((g ⟨i.val + (row.val - row.val % 3), by omega⟩
         ⟨j.val + (col.val - col.val % 3), by omega⟩).value == some num))

/-- Embedding of `findEmptyCell`: first `(row, col)` in row-major order with empty value. -/
def findEmptyCell (g : Grid) : Option (Fin 9 × Fin 9) :=
  (List.finRange 9).findSome? fun row =>
    ((List.finRange 9).find? fun col => (g row col).value == none).map
      fun col => (row, col)

end GameLogic1

namespace GameLogic1

/-- Embedding of `checkPlacement(grid, row, col, value)` of the first module: scans the
row and column skipping index `col` resp. `row`, and the box skipping only
the cell `(row, col)` itself. -/
def checkPlacement (g : Grid) (row col : Fin 9) (value : Fin 9) : Bool :=
  ((List.finRange 9).all fun x =>
    !(!(x == col) && ((g row x).value == some value))) &&
  ((List.finRange 9).all fun x =>
    !(!(x == row) && ((g x col).value == some value))) &&
  ((List.finRange 3).all fun i => (List.finRange 3).all fun j =>
    let r' : Fin 9 := ⟨(row.val - row.val % 3) + i.val, by omega⟩
    let c' : Fin 9 := ⟨(col.val - col.val % 3) + j.val, by omega⟩
    !((!(r' == row) || !(c' == col)) && ((g r' c').value == some value)))

end GameLogic1

namespace GameLogic2

/-- Embedding of `checkPlacement` of the second module: row and column scans as in the
first module, but its box scan skips every box cell that shares the row
`row` or the column `col` (`currentRow !== row && currentCol !== col`). -/
def checkPlacement (g : Grid) (row col : Fin 9) (value : Fin 9) : Bool :=
  ((List.finRange 9).all fun i =>
    !(!(i == col) && ((g row i).value == some value))) &&
  ((List.finRange 9).all fun i =>
    !(!(i == row) && ((g i col).value == some value))) &&
  ((List.finRange 3).all fun i => (List.finRange 3).all fun j =>
    let r' : Fin 9 := ⟨row.val / 3 * 3 + i.val, by omega⟩
    let c' : Fin 9 := ⟨col.val / 3 * 3 + j.val, by omega⟩
    !((!(r' == row) && !(c' == col)) && ((g r' c').value == some value)))

end GameLogic2

/-- Two positions lie in the same 3×3 box. -/
def sameBox (p q : Fin 9 × Fin 9) : Prop :=
  p.1.val / 3 = q.1.val / 3 ∧ p.2.val / 3 = q.2.val / 3

instance (p q : Fin 9 × Fin 9) : Decidable (sameBox p q) := by
  unfold sameBox; infer_instance

/-- Some cell other than `(row, col)` sharing its row, column or box holds
`value` — the conflict relation of the specification. -/
def Conflict (g : Grid) (row col : Fin 9) (value : Fin 9) : Prop :=
  ∃ p : Fin 9 × Fin 9, p ≠ (row, col) ∧
    (p.1 = row ∨ p.2 = col ∨ sameBox p (row, col)) ∧
    (g p.1 p.2).value = some value

instance (g : Grid) (row col : Fin 9) (value : Fin 9) :
    Decidable (Conflict g row col value) := by
  unfold Conflict; infer_instance

theorem cp1_true_iff (g : Grid) (row col value : Fin 9) :
    GameLogic1.checkPlacement g row col value = true ↔
      ¬ Conflict g row col value := by
  unfold GameLogic1.checkPlacement Conflict
  simp only [Bool.and_eq_true, List.all_eq_true, List.mem_finRange,
    Bool.not_eq_true', Bool.and_eq_false_iff, Bool.not_eq_false',
    Bool.or_eq_false_iff, beq_iff_eq, beq_eq_false_iff_ne, ne_eq,
    not_exists, not_and, true_implies]
  constructor
  · rintro ⟨⟨hA, hB⟩, hC⟩ ⟨r, c⟩ hne hshare hm
    rcases hshare with hr | hc' | hbox
    · subst hr
      rcases hA c with hcol | hnm
      · exact hne (by simp [hcol])
      · exact hnm hm
    · subst hc'
      rcases hB r with hrow | hnm
      · exact hne (by simp [hrow])
      · exact hnm hm
    · obtain ⟨hbr0, hbc0⟩ := hbox
      have hbr : r.val / 3 = row.val / 3 := hbr0
      have hbc : c.val / 3 = col.val / 3 := hbc0
      have hC' := hC ⟨r.val % 3, Nat.mod_lt _ (by norm_num)⟩
        ⟨c.val % 3, Nat.mod_lt _ (by norm_num)⟩
      simp only [Prod.mk.injEq, Fin.ext_iff] at hC' hne
      rcases hC' with ⟨h1, h2⟩ | hnm
      · exact hne ⟨by omega, by omega⟩
      · have er : (⟨row.val - row.val % 3 + r.val % 3, by omega⟩ : Fin 9) = r := by
          apply Fin.ext
          simp only
          omega
        have ec : (⟨col.val - col.val % 3 + c.val % 3, by omega⟩ : Fin 9) = c := by
          apply Fin.ext
          simp only
          omega
        rw [er, ec] at hnm
        exact hnm hm
  · intro h
    refine ⟨⟨?_, ?_⟩, ?_⟩
    · intro x
      by_cases hx : x = col
      · exact Or.inl hx
      · exact Or.inr (h (row, x) (by simp [hx]) (Or.inl rfl))
    · intro x
      by_cases hx : x = row
      · exact Or.inl hx
      · exact Or.inr (h (x, col) (by simp [hx]) (Or.inr (Or.inl rfl)))
    · intro i j
      by_cases hij : (row.val - row.val % 3 + i.val = row.val) ∧
          (col.val - col.val % 3 + j.val = col.val)
      · exact Or.inl ⟨Fin.ext hij.1, Fin.ext hij.2⟩
      · refine Or.inr (h (⟨row.val - row.val % 3 + i.val, by omega⟩,
          ⟨col.val - col.val % 3 + j.val, by omega⟩) ?_ ?_)
        · intro hcontra
          rw [Prod.mk.injEq, Fin.ext_iff, Fin.ext_iff] at hcontra
          exact hij hcontra
        · refine Or.inr (Or.inr ⟨?_, ?_⟩)
          · show (row.val - row.val % 3 + i.val) / 3 = row.val / 3
            have := i.isLt
            omega
          · show (col.val - col.val % 3 + j.val) / 3 = col.val / 3
            have := j.isLt
            omega

theorem cp2_true_iff (g : Grid) (row col value : Fin 9) :
    GameLogic2.checkPlacement g row col value = true ↔
      ¬ Conflict g row col value := by
  unfold GameLogic2.checkPlacement Conflict
  simp only [Bool.and_eq_true, List.all_eq_true, List.mem_finRange,
    Bool.not_eq_true', Bool.and_eq_false_iff, Bool.not_eq_false',
    Bool.or_eq_false_iff, beq_iff_eq, beq_eq_false_iff_ne, ne_eq,
    not_exists, not_and, true_implies]
  constructor
  · rintro ⟨⟨hA, hB⟩, hC⟩ ⟨r, c⟩ hne hshare hm
    have hrowcase : r = row → False := by
      intro hr
      subst hr
      rcases hA c with hcol | hnm
      · exact hne (by simp [hcol])
      · exact hnm hm
    have hcolcase : c = col → False := by
      intro hc'
      subst hc'
      rcases hB r with hrow | hnm
      · exact hne (by simp [hrow])
      · exact hnm hm
    rcases hshare with hr | hc' | hbox
    · exact hrowcase hr
    · exact hcolcase hc'
    · obtain ⟨hbr0, hbc0⟩ := hbox
      have hbr : r.val / 3 = row.val / 3 := hbr0
      have hbc : c.val / 3 = col.val / 3 := hbc0
      have hC' := hC ⟨r.val % 3, Nat.mod_lt _ (by norm_num)⟩
        ⟨c.val % 3, Nat.mod_lt _ (by norm_num)⟩
      simp only [Fin.ext_iff] at hC'
      rcases hC' with (h1 | h1) | hnm
      · exact hrowcase (Fin.ext (by omega))
      · exact hcolcase (Fin.ext (by omega))
      · have er : (⟨row.val / 3 * 3 + r.val % 3, by omega⟩ : Fin 9) = r := by
          apply Fin.ext
          simp only
          omega
        have ec : (⟨col.val / 3 * 3 + c.val % 3, by omega⟩ : Fin 9) = c := by
          apply Fin.ext
          simp only
          omega
        rw [er, ec] at hnm
        exact hnm hm
  · intro h
    refine ⟨⟨?_, ?_⟩, ?_⟩
    · intro x
      by_cases hx : x = col
      · exact Or.inl hx
      · exact Or.inr (h (row, x) (by simp [hx]) (Or.inl rfl))
    · intro x
      by_cases hx : x = row
      · exact Or.inl hx
      · exact Or.inr (h (x, col) (by simp [hx]) (Or.inr (Or.inl rfl)))
    · intro i j
      by_cases hr : row.val / 3 * 3 + i.val = row.val
      · exact Or.inl (Or.inl (Fin.ext hr))
      · by_cases hc : col.val / 3 * 3 + j.val = col.val
        · exact Or.inl (Or.inr (Fin.ext hc))
        · refine Or.inr (h (⟨row.val / 3 * 3 + i.val, by omega⟩,
            ⟨col.val / 3 * 3 + j.val, by omega⟩) ?_ ?_)
          · intro hcontra
            rw [Prod.mk.injEq, Fin.ext_iff, Fin.ext_iff] at hcontra
            exact hr hcontra.1
          · refine Or.inr (Or.inr ⟨?_, ?_⟩)
            · show (row.val / 3 * 3 + i.val) / 3 = row.val / 3
              have := i.isLt
              omega
            · show (col.val / 3 * 3 + j.val) / 3 = col.val / 3
              have := j.isLt
              omega

/-- Claim C3: for every grid and in-range row, column and value,
`checkPlacement` (in each of the two game-logic modules) returns `false`
exactly when some cell other than `(row, col)` sharing its row, column, or
3x3 box holds `value`; the cell `(row, col)` itself is excluded. -/
theorem C3_checkPlacement_iff_conflict (g : Grid) (row col value : Fin 9) :
    (GameLogic1.checkPlacement g row col value = false ↔
      Conflict g row col value) ∧
    (GameLogic2.checkPlacement g row col value = false ↔
      Conflict g row col value) := by
  constructor
  · rw [Bool.eq_false_iff, ne_eq, cp1_true_iff, not_not]
  · rw [Bool.eq_false_iff, ne_eq, cp2_true_iff, not_not]

/-- Two positions share a row, a column, or a 3×3 box. -/
def sameUnit (p q : Fin 9 × Fin 9) : Prop :=
  p.1 = q.1 ∨ p.2 = q.2 ∨ sameBox p q

instance (p q : Fin 9 × Fin 9) : Decidable (sameUnit p q) := by
  unfold sameUnit; infer_instance

theorem sameUnit_symm {p q : Fin 9 × Fin 9} (h : sameUnit p q) : sameUnit q p := by
  unfold sameUnit sameBox at h ⊢
  tauto

/-- No two distinct filled cells sharing a row, column or box hold the same
value. -/
def Consistent (g : Grid) : Prop :=
  ∀ p q : Fin 9 × Fin 9, ∀ v : Fin 9, p ≠ q → sameUnit p q →
    (g p.1 p.2).value = some v → (g q.1 q.2).value ≠ some v

instance (g : Grid) : Decidable (Consistent g) := by
  unfold Consistent; infer_instance

/-- A total assignment of colors to all 81 cells. -/
def Assignment : Type := Fin 9 → Fin 9 → Fin 9

instance : DecidableEq Assignment := by
  unfold Assignment; infer_instance

instance fintypeAssignment : Fintype Assignment := by
  unfold Assignment; infer_instance

attribute [irreducible] fintypeAssignment

/-- The assignment satisfies the row/column/box constraint. -/
def ValidAssign (f : Assignment) : Prop :=
  ∀ p q : Fin 9 × Fin 9, p ≠ q → sameUnit p q → f p.1 p.2 ≠ f q.1 q.2

instance (f : Assignment) : Decidable (ValidAssign f) := by
  unfold ValidAssign; infer_instance

/-- The assignment agrees with every filled cell of the grid. -/
def Extends (g : Grid) (f : Assignment) : Prop :=
  ∀ (r c : Fin 9) (v : Fin 9), (g r c).value = some v → f r c = v

instance (g : Grid) (f : Assignment) : Decidable (Extends g f) := by
  unfold Extends; infer_instance

/-- The constraint-satisfying completions of a grid. -/
def solsOf (g : Grid) : Finset Assignment :=
  Finset.univ.filter fun f => Extends g f ∧ ValidAssign f

/-- The number of constraint-satisfying completions of a grid. -/
def Nsols (g : Grid) : Nat := (solsOf g).card

namespace GameLogic1

/-- The candidate loop of `countSolutions`: try each `num`, and when legal,
assign it (`grid[row][col].value = num`), recurse through `next` with limit
`limit - solutions`, retract the assignment, and break once the accumulated
count reaches the limit. -/
def csLoop (next : Grid → Nat → Nat × Grid) (r c : Fin 9) :
    List (Fin 9) → Nat → Nat → Grid → Nat × Grid
  | [], s, _, g => (s, g)
  | n :: rest, s, l, g =>
    if isValid g r c n then
      let p := next (writeVal g r c (some n)) (l - s)
      let g2 := writeVal p.2 r c none
      let s' := s + p.1
      if l ≤ s' then (s', g2) else csLoop next r c rest s' l g2
    else csLoop next r c rest s l g

/-- Embedding of `countSolutions(grid, limit)`, fuel-indexed: a filled grid counts as one
solution; otherwise the candidate loop runs at the first empty cell.  The
returned grid is the final state of the mutable grid.  The fuel is always
instantiated with the number of empty cells, making the zero-fuel branch
unreachable. -/
def countSolutionsF : Nat → Grid → Nat → Nat × Grid
  | fuel, g, l =>
    match findEmptyCell g with
    | none => (1, g)
    | some (r, c) =>
      match fuel with
      | 0 => (0, g)
      | fuel' + 1 =>
        csLoop (fun g' l' => countSolutionsF fuel' g' l') r c
          (List.finRange 9) 0 l g

/-- Embedding of `countSolutions(grid, limit)` together with the final grid state. -/
def countSolutionsS (g : Grid) (l : Nat) : Nat × Grid :=
  countSolutionsF (numEmpty g) g l

/-- The value returned by `countSolutions(grid, limit)`. -/
def countSolutions (g : Grid) (l : Nat) : Nat :=
  (countSolutionsS g l).1

end GameLogic1

theorem writeVal_value (g : Grid) (r c : Fin 9) (v : Option (Fin 9)) (r' c' : Fin 9) :
    (writeVal g r c v r' c').value = if r' = r ∧ c' = c then v else (g r' c').value := by
  unfold writeVal
  by_cases h : r' = r ∧ c' = c <;> simp [h]

theorem writeVal_isFixed (g : Grid) (r c : Fin 9) (v : Option (Fin 9)) (r' c' : Fin 9) :
    (writeVal g r c v r' c').isFixed = (g r' c').isFixed := by
  unfold writeVal
  by_cases h : r' = r ∧ c' = c
  · obtain ⟨h1, h2⟩ := h
    subst h1
    subst h2
    simp
  · simp [h]

theorem writeFixed_value (g : Grid) (r c : Fin 9) (b : Bool) (r' c' : Fin 9) :
    (writeFixed g r c b r' c').value = (g r' c').value := by
  unfold writeFixed
  by_cases h : r' = r ∧ c' = c
  · obtain ⟨h1, h2⟩ := h
    subst h1
    subst h2
    simp
  · simp [h]

theorem writeVal_cancel {g : Grid} {r c : Fin 9} (h : (g r c).value = none)
    (v : Option (Fin 9)) : writeVal (writeVal g r c v) r c none = g := by
  funext r' c'
  unfold writeVal
  by_cases hrc : r' = r ∧ c' = c
  · obtain ⟨h1, h2⟩ := hrc
    subst h1
    subst h2
    simp only [and_self, if_pos]
    cases hc : g r' c' with
    | mk val fix =>
      rw [hc] at h
      simp at h
      simp [h]
  · simp [hrc]

theorem numEmpty_eq_zero_iff (g : Grid) :
    numEmpty g = 0 ↔ ∀ r c : Fin 9, (g r c).value ≠ none := by
  unfold numEmpty emptyCells
  rw [Finset.card_eq_zero, Finset.filter_eq_empty_iff]
  constructor
  · intro h r c
    exact h (Finset.mem_univ (r, c))
  · intro h p _
    exact h p.1 p.2

theorem findEmptyCell_eq_none_iff (g : Grid) :
    GameLogic1.findEmptyCell g = none ↔ ∀ r c : Fin 9, (g r c).value ≠ none := by
  unfold GameLogic1.findEmptyCell
  rw [List.findSome?_eq_none_iff]
  constructor
  · intro h r c hv
    have := h r (List.mem_finRange r)
    rw [Option.map_eq_none'] at this
    rw [List.find?_eq_none] at this
    exact this c (List.mem_finRange c) (by simp [hv])
  · intro h r _
    rw [Option.map_eq_none', List.find?_eq_none]
    intro c _ hc
    simp only [beq_iff_eq] at hc
    exact h r c hc

theorem findEmptyCell_empty {g : Grid} {r c : Fin 9}
    (h : GameLogic1.findEmptyCell g = some (r, c)) : (g r c).value = none := by
  unfold GameLogic1.findEmptyCell at h
  obtain ⟨row, _, hrow⟩ := List.exists_of_findSome?_eq_some h
  rw [Option.map_eq_some'] at hrow
  obtain ⟨col, hcol, heq⟩ := hrow
  have hp := List.find?_some hcol
  simp only [beq_iff_eq] at hp
  cases heq
  exact hp

theorem numEmpty_pos_of_findEmptyCell {g : Grid} {r c : Fin 9}
    (h : GameLogic1.findEmptyCell g = some (r, c)) : 1 ≤ numEmpty g := by
  have hv := findEmptyCell_empty h
  unfold numEmpty
  rw [Nat.one_le_iff_ne_zero]
  intro hzero
  rw [show (emptyCells g).card = numEmpty g from rfl, numEmpty_eq_zero_iff] at hzero
  exact hzero r c hv

theorem findEmptyCell_isSome_of_empty {g : Grid} {r c : Fin 9}
    (h : (g r c).value = none) : GameLogic1.findEmptyCell g ≠ none := by
  rw [ne_eq, findEmptyCell_eq_none_iff]
  push_neg
  exact ⟨r, c, h⟩

theorem numEmpty_writeVal_some {g : Grid} {r c : Fin 9}
    (h : (g r c).value = none) (v : Fin 9) :
    numEmpty (writeVal g r c (some v)) + 1 = numEmpty g := by
  unfold numEmpty
  have hset : emptyCells (writeVal g r c (some v)) = (emptyCells g).erase (r, c) := by
    unfold emptyCells
    ext p
    simp only [Finset.mem_filter, Finset.mem_univ, true_and, Finset.mem_erase]
    rw [writeVal_value]
    by_cases hp : p.1 = r ∧ p.2 = c
    · have : p = (r, c) := by
        rw [Prod.ext_iff]
        exact hp
      simp [hp, this]
    · have : p ≠ (r, c) := by
        rw [Ne, Prod.ext_iff]
        exact hp
      simp [hp, this]
  rw [hset]
  have hmem : (r, c) ∈ emptyCells g := by
    unfold emptyCells
    simp [h]
  rw [Finset.card_erase_of_mem hmem]
  have := Finset.card_pos.mpr ⟨(r, c), hmem⟩
  omega

theorem isValid_true_iff (g : Grid) (row col num : Fin 9) :
    GameLogic1.isValid g row col num = true ↔
      ∀ p : Fin 9 × Fin 9, sameUnit p (row, col) →
        (g p.1 p.2).value ≠ some num := by
  unfold GameLogic1.isValid
  simp only [Bool.and_eq_true, List.all_eq_true, List.mem_finRange,
    Bool.not_eq_true', beq_eq_false_iff_ne, ne_eq, true_implies]
  constructor
  · rintro ⟨⟨hA, hB⟩, hC⟩ ⟨r, c⟩ hshare hm
    rcases hshare with hr | hc' | hbox
    · simp only at hr
      subst hr
      exact hA c hm
    · simp only at hc'
      subst hc'
      exact hB r hm
    · obtain ⟨hbr0, hbc0⟩ := hbox
      have hbr : r.val / 3 = row.val / 3 := hbr0
      have hbc : c.val / 3 = col.val / 3 := hbc0
      have hC' := hC ⟨r.val % 3, Nat.mod_lt _ (by norm_num)⟩
        ⟨c.val % 3, Nat.mod_lt _ (by norm_num)⟩
      have er : (⟨(⟨r.val % 3, Nat.mod_lt _ (by norm_num)⟩ : Fin 3).val +
          (row.val - row.val % 3), by omega⟩ : Fin 9) = r := by
        apply Fin.ext
        simp only
        omega
      have ec : (⟨(⟨c.val % 3, Nat.mod_lt _ (by norm_num)⟩ : Fin 3).val +
          (col.val - col.val % 3), by omega⟩ : Fin 9) = c := by
        apply Fin.ext
        simp only
        omega
      rw [er, ec] at hC'
      exact hC' hm
  · intro h
    refine ⟨⟨?_, ?_⟩, ?_⟩
    · intro x
      exact h (row, x) (Or.inl rfl)
    · intro x
      exact h (x, col) (Or.inr (Or.inl rfl))
    · intro i j
      refine h (⟨i.val + (row.val - row.val % 3), by omega⟩,
        ⟨j.val + (col.val - col.val % 3), by omega⟩) ?_
      refine Or.inr (Or.inr ⟨?_, ?_⟩)
      · show (i.val + (row.val - row.val % 3)) / 3 = row.val / 3
        have := i.isLt
        omega
      · show (j.val + (col.val - col.val % 3)) / 3 = col.val / 3
        have := j.isLt
        omega

/-- The assignment read off a fully filled grid. -/
def fillOf (g : Grid) : Assignment := fun r c => ((g r c).value).getD 0

theorem Nsols_of_full {g : Grid} (hfull : numEmpty g = 0)
    (hcons : Consistent g) : Nsols g = 1 := by
  rw [numEmpty_eq_zero_iff] at hfull
  unfold Nsols
  have hsingle : solsOf g = {fillOf g} := by
    ext f
    unfold solsOf
    simp only [Finset.mem_filter, Finset.mem_univ, true_and,
      Finset.mem_singleton]
    constructor
    · rintro ⟨hext, _⟩
      funext r c
      obtain ⟨v, hv⟩ := Option.ne_none_iff_exists'.mp (hfull r c)
      rw [hext r c v hv]
      unfold fillOf
      rw [hv]
      rfl
    · intro hf
      subst hf
      constructor
      · intro r c v hv
        unfold fillOf
        rw [hv]
        rfl
      · intro p q hne hshare
        obtain ⟨vp, hvp⟩ := Option.ne_none_iff_exists'.mp (hfull p.1 p.2)
        obtain ⟨vq, hvq⟩ := Option.ne_none_iff_exists'.mp (hfull q.1 q.2)
        unfold fillOf
        rw [hvp, hvq]
        simp only [Option.getD_some]
        intro hvv
        subst hvv
        exact hcons p q vp hne hshare hvp hvq
  rw [hsingle]
  exact Finset.card_singleton _

theorem solsOf_writeVal {g : Grid} {r c : Fin 9} (h : (g r c).value = none)
    (n : Fin 9) :
    solsOf (writeVal g r c (some n)) = (solsOf g).filter fun f => f r c = n := by
  ext f
  unfold solsOf
  simp only [Finset.mem_filter, Finset.mem_univ, true_and]
  constructor
  · rintro ⟨hext, hvalid⟩
    have hfn : f r c = n := by
      apply hext
      rw [writeVal_value]
      simp
    refine ⟨⟨?_, hvalid⟩, hfn⟩
    intro r' c' v hv
    apply hext
    rw [writeVal_value]
    by_cases hp : r' = r ∧ c' = c
    · obtain ⟨h1, h2⟩ := hp
      subst h1
      subst h2
      rw [hv] at h
      exact absurd h (by simp)
    · rw [if_neg hp]
      exact hv
  · rintro ⟨⟨hext, hvalid⟩, hfn⟩
    refine ⟨?_, hvalid⟩
    intro r' c' v hv
    rw [writeVal_value] at hv
    by_cases hp : r' = r ∧ c' = c
    · rw [if_pos hp] at hv
      obtain ⟨h1, h2⟩ := hp
      subst h1
      subst h2
      cases hv
      exact hfn
    · rw [if_neg hp] at hv
      exact hext r' c' v hv

theorem Nsols_fiber_sum {g : Grid} (r c : Fin 9) :
    Nsols g = ∑ n : Fin 9, ((solsOf g).filter fun f => f r c = n).card := by
  unfold Nsols
  exact Finset.card_eq_sum_card_fiberwise fun f _ => Finset.mem_univ (f r c)

theorem Nsols_rec {g : Grid} {r c : Fin 9} (h : (g r c).value = none) :
    Nsols g = ∑ n : Fin 9, Nsols (writeVal g r c (some n)) := by
  rw [Nsols_fiber_sum r c]
  refine Finset.sum_congr rfl fun n _ => ?_
  rw [Nsols, solsOf_writeVal h]

theorem sols_filter_empty_of_invalid {g : Grid} {r c n : Fin 9}
    (hempty : (g r c).value = none)
    (hinv : GameLogic1.isValid g r c n = false) :
    (solsOf g).filter (fun f => f r c = n) = ∅ := by
  have hnc : ¬ ∀ p : Fin 9 × Fin 9, sameUnit p (r, c) →
      (g p.1 p.2).value ≠ some n := by
    rw [← isValid_true_iff]
    simp [hinv]
  push_neg at hnc
  obtain ⟨p, hshare, hp⟩ := hnc
  rw [Finset.filter_eq_empty_iff]
  rintro f hf hfn
  unfold solsOf at hf
  simp only [Finset.mem_filter, Finset.mem_univ, true_and] at hf
  obtain ⟨hext, hvalid⟩ := hf
  have hfp : f p.1 p.2 = n := hext p.1 p.2 n hp
  have hpne : p ≠ (r, c) := by
    intro hcontra
    rw [hcontra] at hp
    rw [hempty] at hp
    exact absurd hp (by simp)
  exact hvalid p (r, c) hpne hshare (by rw [hfp, hfn])

theorem Nsols_writeVal_invalid {g : Grid} {r c n : Fin 9}
    (hempty : (g r c).value = none)
    (hinv : GameLogic1.isValid g r c n = false) :
    Nsols (writeVal g r c (some n)) = 0 := by
  rw [Nsols, solsOf_writeVal hempty, sols_filter_empty_of_invalid hempty hinv]
  rfl

theorem consistent_writeVal {g : Grid} {r c n : Fin 9} (hcons : Consistent g)
    (hempty : (g r c).value = none)
    (hval : GameLogic1.isValid g r c n = true) :
    Consistent (writeVal g r c (some n)) := by
  rw [isValid_true_iff] at hval
  intro p q v hne hshare hp hq
  rw [writeVal_value] at hp hq
  by_cases hpc : p.1 = r ∧ p.2 = c
  · rw [if_pos hpc] at hp
    by_cases hqc : q.1 = r ∧ q.2 = c
    · exact hne (by rw [Prod.ext_iff]; exact ⟨hpc.1.trans hqc.1.symm, hpc.2.trans hqc.2.symm⟩)
    · rw [if_neg hqc] at hq
      cases hp
      have hshare' : sameUnit q (r, c) := by
        have : p = (r, c) := by
          rw [Prod.ext_iff]
          exact hpc
        rw [this] at hshare
        exact sameUnit_symm hshare
      exact hval q hshare' hq
  · rw [if_neg hpc] at hp
    by_cases hqc : q.1 = r ∧ q.2 = c
    · rw [if_pos hqc] at hq
      cases hq
      have hshare' : sameUnit p (r, c) := by
        have : q = (r, c) := by
          rw [Prod.ext_iff]
          exact hqc
        rw [this] at hshare
        exact hshare
      exact hval p hshare' hp
    · rw [if_neg hqc] at hq
      exact hcons p q v hne hshare hp hq

namespace GameLogic1

theorem csLoop_snd (next : Grid → Nat → Nat × Grid) (r c : Fin 9)
    (hnext : ∀ g' l', (next g' l').2 = g') :
    ∀ (nums : List (Fin 9)) (s l : Nat) (g : Grid),
      (g r c).value = none → (csLoop next r c nums s l g).2 = g := by
  intro nums
  induction nums with
  | nil => intro s l g _; rfl
  | cons n rest ih =>
    intro s l g hempty
    rw [csLoop]
    by_cases hv : isValid g r c n
    · rw [if_pos hv]
      simp only
      have hrest : (next (writeVal g r c (some n)) (l - s)).2
          = writeVal g r c (some n) := hnext _ _
      rw [hrest, writeVal_cancel hempty]
      by_cases hbreak : l ≤ s + (next (writeVal g r c (some n)) (l - s)).1
      · rw [if_pos hbreak]
      · rw [if_neg hbreak]
        exact ih _ _ _ hempty
    · rw [if_neg hv]
      exact ih _ _ _ hempty

theorem countSolutionsF_snd :
    ∀ (fuel : Nat) (g : Grid) (l : Nat), (countSolutionsF fuel g l).2 = g := by
  intro fuel
  induction fuel with
  | zero =>
    intro g l
    rw [countSolutionsF]
    cases hfind : findEmptyCell g with
    | none => rfl
    | some rc => cases rc; rfl
  | succ fuel' ih =>
    intro g l
    rw [countSolutionsF]
    cases hfind : findEmptyCell g with
    | none => rfl
    | some rc =>
      cases rc with
      | mk r c =>
        simp only
        exact csLoop_snd _ r c (fun g' l' => ih g' l') _ _ _ _
          (findEmptyCell_empty hfind)

end GameLogic1

namespace GameLogic1

theorem csLoop_count (fuel' : Nat)
    (IH : ∀ (g' : Grid) (l' : Nat), Consistent g' → numEmpty g' ≤ fuel' →
      1 ≤ l' → (countSolutionsF fuel' g' l').1 = min (Nsols g') l') (r c : Fin 9) :
    ∀ (nums : List (Fin 9)) (s l : Nat) (g : Grid),
      Consistent g → (g r c).value = none → numEmpty g ≤ fuel' + 1 → s < l →
      (csLoop (fun g' l' => countSolutionsF fuel' g' l') r c nums s l g).1 =
        min (s + (nums.map fun n => Nsols (writeVal g r c (some n))).sum) l := by
  intro nums
  induction nums with
  | nil =>
    intro s l g _ _ _ hs
    simp only [csLoop, List.map_nil, List.sum_nil, Nat.add_zero]
    omega
  | cons n rest ih =>
    intro s l g hcons hempty hfuel hs
    rw [csLoop]
    by_cases hv : isValid g r c n
    · rw [if_pos hv]
      simp only
      have hrec : (countSolutionsF fuel' (writeVal g r c (some n)) (l - s)).1 =
          min (Nsols (writeVal g r c (some n))) (l - s) := by
        apply IH
        · exact consistent_writeVal hcons hempty hv
        · have := numEmpty_writeVal_some hempty n
          omega
        · omega
      rw [hrec]
      have hsnd : (countSolutionsF fuel' (writeVal g r c (some n)) (l - s)).2 =
          writeVal g r c (some n) := countSolutionsF_snd _ _ _
      rw [hsnd, writeVal_cancel hempty]
      set B := Nsols (writeVal g r c (some n)) with hB
      by_cases hbreak : l ≤ s + min B (l - s)
      · rw [if_pos hbreak]
        simp only [List.map_cons, List.sum_cons]
        omega
      · rw [if_neg hbreak]
        rw [ih _ _ _ hcons hempty hfuel (by omega)]
        simp only [List.map_cons, List.sum_cons]
        omega
    · rw [if_neg hv]
      rw [ih _ _ _ hcons hempty hfuel hs]
      have hzero : Nsols (writeVal g r c (some n)) = 0 :=
        Nsols_writeVal_invalid hempty (by simp [hv])
      simp only [List.map_cons, List.sum_cons, hzero, Nat.zero_add]

theorem countSolutionsF_count :
    ∀ (fuel : Nat) (g : Grid) (l : Nat), Consistent g → numEmpty g ≤ fuel →
      1 ≤ l → (countSolutionsF fuel g l).1 = min (Nsols g) l := by
  intro fuel
  induction fuel with
  | zero =>
    intro g l hcons hfuel hl
    rw [countSolutionsF]
    cases hfind : findEmptyCell g with
    | none =>
      have hfull : numEmpty g = 0 := by omega
      rw [Nsols_of_full hfull hcons]
      simp
      omega
    | some rc =>
      exfalso
      cases rc with
      | mk r c => exact absurd (numEmpty_pos_of_findEmptyCell hfind) (by omega)
  | succ fuel' ih =>
    intro g l hcons hfuel hl
    rw [countSolutionsF]
    cases hfind : findEmptyCell g with
    | none =>
      have hfull : numEmpty g = 0 := by
        rw [numEmpty_eq_zero_iff]
        rw [findEmptyCell_eq_none_iff] at hfind
        exact hfind
      rw [Nsols_of_full hfull hcons]
      simp
      omega
    | some rc =>
      cases rc with
      | mk r c =>
        simp only
        have hempty := findEmptyCell_empty hfind
        rw [csLoop_count fuel' ih r c (List.finRange 9) 0 l g hcons hempty hfuel
          (by omega)]
        have hsum : Nsols g =
            ((List.finRange 9).map fun n => Nsols (writeVal g r c (some n))).sum := by
          rw [Nsols_rec hempty, Fin.sum_univ_def]
        rw [Nat.zero_add, ← hsum]

end GameLogic1

theorem mem_swapL {α : Type} {l : List α} {i j : Nat} {x : α} :
    x ∈ swapL l i j ↔ x ∈ l := by
  unfold swapL
  cases hgi : l.get? i with
  | none => exact Iff.rfl
  | some a =>
    cases hgj : l.get? j with
    | none => exact Iff.rfl
    | some b =>
      simp only
      obtain ⟨hi, hga⟩ := List.get?_eq_some.mp hgi
      obtain ⟨hj, hgb⟩ := List.get?_eq_some.mp hgj
      have hamem : a ∈ l := hga ▸ List.get_mem l i hi
      have hbmem : b ∈ l := hgb ▸ List.get_mem l j hj
      constructor
      · intro hx
        rcases List.mem_or_eq_of_mem_set hx with hx1 | hx1
        · rcases List.mem_or_eq_of_mem_set hx1 with hx2 | hx2
          · exact hx2
          · exact hx2 ▸ hbmem
        · exact hx1 ▸ hamem
      · intro hx
        rw [List.mem_iff_get?] at hx
        obtain ⟨k, hk⟩ := hx
        rw [List.mem_iff_get?]
        by_cases hki : k = i
        · rw [hki, hgi] at hk
          cases hk
          refine ⟨j, ?_⟩
          rw [List.get?_set_eq_of_lt]
          rw [List.length_set]
          exact hj
        · by_cases hkj : k = j
          · rw [hkj, hgj] at hk
            cases hk
            have hij : i ≠ j := fun he => hki (hkj.trans he.symm)
            refine ⟨i, ?_⟩
            rw [List.get?_set_ne _ _ (fun he => hij he.symm)]
            rw [List.get?_set_eq_of_lt _ hi]
          · refine ⟨k, ?_⟩
            rw [List.get?_set_ne _ _ (fun he => hkj he.symm),
              List.get?_set_ne _ _ (fun he => hki he.symm)]
            exact hk

theorem mem_shuffleF {α : Type} (tape : Nat → Nat) :
    ∀ (i k : Nat) (l : List α) (x : α), x ∈ (shuffleF tape k i l).1 ↔ x ∈ l := by
  intro i
  induction i with
  | zero => intro k l x; exact Iff.rfl
  | succ i ih =>
    intro k l x
    rw [shuffleF]
    rw [ih]
    exact mem_swapL

theorem mem_shuffle {α : Type} (tape : Nat → Nat) (k : Nat) (l : List α) (x : α) :
    x ∈ (shuffle tape k l).1 ↔ x ∈ l := by
  unfold shuffle
  exact mem_shuffleF tape _ k l x

namespace GameLogic1

/-- The candidate loop of `generateSolution`: try the (shuffled) candidates
in order; on a legal candidate assign it, recurse through `next`, and on
recursion failure retract the assignment before trying the next one. -/
def gsLoop (next : Nat → Grid → Bool × Grid × Nat) (r c : Fin 9) :
    List (Fin 9) → Nat → Grid → Bool × Grid × Nat
  | [], k, g => (false, g, k)
  | n :: rest, k, g =>
    if isValid g r c n then
      let res := next k (writeVal g r c (some n))
      if res.1 then res
      else gsLoop next r c rest res.2.2 (writeVal res.2.1 r c none)
    else gsLoop next r c rest k g

/-- Embedding of `generateSolution(grid)`, fuel-indexed, with the random tape explicit:
find the first empty cell, shuffle the numbers `0..8`, and backtrack.
Returns the success flag, the final grid state, and the next tape
position. -/
def generateSolutionF (tape : Nat → Nat) : Nat → Nat → Grid → Bool × Grid × Nat
  | fuel, k, g =>
    match findEmptyCell g with
    | none => (true, g, k)
    | some (r, c) =>
      match fuel with
      | 0 => (false, g, k)
      | fuel' + 1 =>
        let sh := shuffle tape k (List.finRange 9)
        gsLoop (fun k' g' => generateSolutionF tape fuel' k' g') r c sh.1 sh.2 g

/-- Embedding of `generateSolution(grid)` with fuel instantiated. -/
def generateSolutionS (tape : Nat → Nat) (k : Nat) (g : Grid) :
    Bool × Grid × Nat :=
  generateSolutionF tape (numEmpty g) k g

theorem gsLoop_false (next : Nat → Grid → Bool × Grid × Nat) (r c : Fin 9)
    (hnext : ∀ k' g', (next k' g').1 = false → (next k' g').2.1 = g') :
    ∀ (nums : List (Fin 9)) (k : Nat) (g : Grid), (g r c).value = none →
      (gsLoop next r c nums k g).1 = false →
      (gsLoop next r c nums k g).2.1 = g := by
  intro nums
  induction nums with
  | nil => intro k g _ _; rfl
  | cons n rest ih =>
    intro k g hempty hfail
    rw [gsLoop] at hfail ⊢
    by_cases hv : isValid g r c n
    · rw [if_pos hv] at hfail ⊢
      simp only at hfail ⊢
      by_cases hres : (next k (writeVal g r c (some n))).1 = true
      · rw [if_pos hres] at hfail
        rw [if_pos hres]
        exact absurd hfail (by simp [hres])
      · rw [if_neg hres] at hfail ⊢
        have hrest := hnext k (writeVal g r c (some n)) (by simpa using hres)
        rw [hrest, writeVal_cancel hempty] at hfail ⊢
        exact ih _ _ hempty hfail
    · rw [if_neg hv] at hfail ⊢
      exact ih _ _ hempty hfail

theorem generateSolutionF_false (tape : Nat → Nat) :
    ∀ (fuel k : Nat) (g : Grid),
      (generateSolutionF tape fuel k g).1 = false →
      (generateSolutionF tape fuel k g).2.1 = g := by
  intro fuel
  induction fuel with
  | zero =>
    intro k g hfail
    rw [generateSolutionF] at hfail ⊢
    cases hfind : findEmptyCell g with
    | none => rfl
    | some rc => cases rc; rfl
  | succ fuel' ih =>
    intro k g
    rw [generateSolutionF]
    cases hfind : findEmptyCell g with
    | none =>
      intro hfail
      exact absurd hfail (by simp)
    | some rc =>
      cases rc with
      | mk r c =>
        intro hfail
        exact gsLoop_false _ r c (fun k' g' => ih k' g') _ _ _
          (findEmptyCell_empty hfind) hfail

end GameLogic1

namespace GameLogic1

theorem gsLoop_success_props (next : Nat → Grid → Bool × Grid × Nat)
    (fuel' : Nat) (r c : Fin 9)
    (hfalse : ∀ k' g', (next k' g').1 = false → (next k' g').2.1 = g')
    (hprops : ∀ k' g', Consistent g' → numEmpty g' ≤ fuel' →
      (next k' g').1 = true →
      numEmpty (next k' g').2.1 = 0 ∧ Consistent (next k' g').2.1) :
    ∀ (nums : List (Fin 9)) (k : Nat) (g : Grid), Consistent g →
      (g r c).value = none → numEmpty g ≤ fuel' + 1 →
      (gsLoop next r c nums k g).1 = true →
      numEmpty (gsLoop next r c nums k g).2.1 = 0 ∧
        Consistent (gsLoop next r c nums k g).2.1 := by
  intro nums
  induction nums with
  | nil =>
    intro k g _ _ _ hsucc
    exact absurd hsucc (by simp [gsLoop])
  | cons n rest ih =>
    intro k g hcons hempty hfuel
    rw [gsLoop]
    by_cases hv : isValid g r c n
    · rw [if_pos hv]
      simp only
      by_cases hres : (next k (writeVal g r c (some n))).1 = true
      · rw [if_pos hres]
        intro _
        refine hprops k (writeVal g r c (some n)) ?_ ?_ hres
        · exact consistent_writeVal hcons hempty hv
        · have := numEmpty_writeVal_some hempty n
          omega
      · rw [if_neg hres]
        have hrest := hfalse k (writeVal g r c (some n)) (by simpa using hres)
        rw [hrest, writeVal_cancel hempty]
        exact ih _ _ hcons hempty hfuel
    · rw [if_neg hv]
      exact ih _ _ hcons hempty hfuel

theorem gsLoop_success (next : Nat → Grid → Bool × Grid × Nat)
    (fuel' : Nat) (r c : Fin 9)
    (hfalse : ∀ k' g', (next k' g').1 = false → (next k' g').2.1 = g')
    (hsucc : ∀ k' g', Consistent g' → numEmpty g' ≤ fuel' → 1 ≤ Nsols g' →
      (next k' g').1 = true) :
    ∀ (nums : List (Fin 9)) (k : Nat) (g : Grid), Consistent g →
      (g r c).value = none → numEmpty g ≤ fuel' + 1 →
      (∃ n ∈ nums, isValid g r c n = true ∧
        1 ≤ Nsols (writeVal g r c (some n))) →
      (gsLoop next r c nums k g).1 = true := by
  intro nums
  induction nums with
  | nil =>
    rintro k g _ _ _ ⟨n, hn, _⟩
    exact absurd hn (by simp)
  | cons m rest ih =>
    rintro k g hcons hempty hfuel ⟨n, hn, hnval, hnsols⟩
    rw [gsLoop]
    by_cases hv : isValid g r c m
    · rw [if_pos hv]
      simp only
      by_cases hres : (next k (writeVal g r c (some m))).1 = true
      · rw [if_pos hres]
        exact hres
      · rw [if_neg hres]
        have hrest := hfalse k (writeVal g r c (some m)) (by simpa using hres)
        rw [hrest, writeVal_cancel hempty]
        have hzero : ¬ 1 ≤ Nsols (writeVal g r c (some m)) := by
          intro hge
          exact hres (hsucc k (writeVal g r c (some m))
            (consistent_writeVal hcons hempty hv)
            (by have := numEmpty_writeVal_some hempty m; omega) hge)
        have hnm : n ≠ m := by
          intro he
          rw [he] at hnsols
          exact hzero hnsols
        refine ih _ _ hcons hempty hfuel ⟨n, ?_, hnval, hnsols⟩
        rcases List.mem_cons.mp hn with he | hr
        · exact absurd he hnm
        · exact hr
    · rw [if_neg hv]
      have hnm : n ≠ m := by
        intro he
        rw [he] at hnval
        exact hv hnval
      refine ih _ _ hcons hempty hfuel ⟨n, ?_, hnval, hnsols⟩
      rcases List.mem_cons.mp hn with he | hr
      · exact absurd he hnm
      · exact hr

theorem generateSolutionF_success_props (tape : Nat → Nat) :
    ∀ (fuel k : Nat) (g : Grid), Consistent g → numEmpty g ≤ fuel →
      (generateSolutionF tape fuel k g).1 = true →
      numEmpty (generateSolutionF tape fuel k g).2.1 = 0 ∧
        Consistent (generateSolutionF tape fuel k g).2.1 := by
  intro fuel
  induction fuel with
  | zero =>
    intro k g hcons hfuel
    rw [generateSolutionF]
    cases hfind : findEmptyCell g with
    | none =>
      intro _
      refine ⟨?_, hcons⟩
      rw [numEmpty_eq_zero_iff]
      rw [findEmptyCell_eq_none_iff] at hfind
      exact hfind
    | some rc =>
      cases rc with
      | mk r c =>
        intro hsucc
        exact absurd hsucc (by simp)
  | succ fuel' ih =>
    intro k g hcons hfuel
    rw [generateSolutionF]
    cases hfind : findEmptyCell g with
    | none =>
      intro _
      refine ⟨?_, hcons⟩
      rw [numEmpty_eq_zero_iff]
      rw [findEmptyCell_eq_none_iff] at hfind
      exact hfind
    | some rc =>
      cases rc with
      | mk r c =>
        exact gsLoop_success_props _ fuel' r c
          (fun k' g' => generateSolutionF_false tape fuel' k' g')
          (fun k' g' => ih k' g') _ _ _ hcons
          (findEmptyCell_empty hfind) hfuel

theorem generateSolutionF_success (tape : Nat → Nat) :
    ∀ (fuel k : Nat) (g : Grid), Consistent g → numEmpty g ≤ fuel →
      1 ≤ Nsols g → (generateSolutionF tape fuel k g).1 = true := by
  intro fuel
  induction fuel with
  | zero =>
    intro k g hcons hfuel hsols
    rw [generateSolutionF]
    cases hfind : findEmptyCell g with
    | none => rfl
    | some rc =>
      cases rc with
      | mk r c => exact absurd (numEmpty_pos_of_findEmptyCell hfind) (by omega)
  | succ fuel' ih =>
    intro k g hcons hfuel hsols
    rw [generateSolutionF]
    cases hfind : findEmptyCell g with
    | none => rfl
    | some rc =>
      cases rc with
      | mk r c =>
        have hempty := findEmptyCell_empty hfind
        have hsne : (solsOf g).Nonempty := by
          rw [← Finset.card_pos]
          exact hsols
        obtain ⟨f, hf⟩ := hsne
        have hval : isValid g r c (f r c) = true := by
          by_contra hinv
          have hemptyset := sols_filter_empty_of_invalid hempty
            (Bool.eq_false_iff.mpr hinv)
          rw [Finset.filter_eq_empty_iff] at hemptyset
          exact hemptyset hf rfl
        have hbranch : 1 ≤ Nsols (writeVal g r c (some (f r c))) := by
          rw [Nsols, solsOf_writeVal hempty]
          by_contra hzero
          push_neg at hzero
          rw [Nat.lt_one_iff, Finset.card_eq_zero,
            Finset.filter_eq_empty_iff] at hzero
          exact hzero hf rfl
        refine gsLoop_success _ fuel' r c
          (fun k' g' => generateSolutionF_false tape fuel' k' g')
          (fun k' g' => ih k' g') _ _ _ hcons hempty hfuel
          ⟨f r c, ?_, hval, hbranch⟩
        rw [mem_shuffle]
        exact List.mem_finRange _

end GameLogic1

theorem writeVal_none_id {g : Grid} {r c : Fin 9} (h : (g r c).value = none) :
    writeVal g r c none = g := by
  funext r' c'
  unfold writeVal
  by_cases hrc : r' = r ∧ c' = c
  · obtain ⟨h1, h2⟩ := hrc
    subst h1
    subst h2
    rw [if_pos ⟨rfl, rfl⟩]
    cases hc : g r' c' with
    | mk val fix =>
      rw [hc] at h
      simp at h
      simp [h]
  · rw [if_neg hrc]

theorem writeFixed_id {g : Grid} {r c : Fin 9} {b : Bool}
    (h : (g r c).isFixed = b) : writeFixed g r c b = g := by
  funext r' c'
  unfold writeFixed
  by_cases hrc : r' = r ∧ c' = c
  · obtain ⟨h1, h2⟩ := hrc
    subst h1
    subst h2
    rw [if_pos ⟨rfl, rfl⟩]
    cases hc : g r' c' with
    | mk val fix =>
      rw [hc] at h
      simp only at h
      simp [h]
  · rw [if_neg hrc]

theorem numEmpty_congr {g h : Grid}
    (hv : ∀ r c : Fin 9, (g r c).value = (h r c).value) :
    numEmpty g = numEmpty h := by
  unfold numEmpty emptyCells
  congr 1
  ext p
  simp only [Finset.mem_filter, Finset.mem_univ, true_and, hv p.1 p.2]

theorem numEmpty_writeFixed (g : Grid) (r c : Fin 9) (b : Bool) :
    numEmpty (writeFixed g r c b) = numEmpty g := by
  exact numEmpty_congr fun r' c' => writeFixed_value g r c b r' c'

theorem numEmpty_writeVal_none {g : Grid} {r c : Fin 9} {v : Fin 9}
    (h : (g r c).value = some v) :
    numEmpty (writeVal g r c none) = numEmpty g + 1 := by
  have hcancel : writeVal (writeVal g r c none) r c (some v) = g := by
    funext r' c'
    unfold writeVal
    by_cases hrc : r' = r ∧ c' = c
    · obtain ⟨h1, h2⟩ := hrc
      subst h1
      subst h2
      rw [if_pos ⟨rfl, rfl⟩]
      simp only [and_self, if_pos]
      cases hc : g r' c' with
      | mk val fix =>
        rw [hc] at h
        simp only at h
        simp [h]
    · rw [if_neg hrc, if_neg hrc]
  have hempty : (writeVal g r c none r c).value = none := by
    rw [writeVal_value]
    simp
  have := numEmpty_writeVal_some hempty v
  rw [hcancel] at this
  omega

theorem solsOf_congr {g h : Grid}
    (hv : ∀ r c : Fin 9, (g r c).value = (h r c).value) :
    solsOf g = solsOf h := by
  unfold solsOf
  ext f
  simp only [Finset.mem_filter, Finset.mem_univ, true_and]
  unfold Extends
  constructor
  · rintro ⟨he, hva⟩
    exact ⟨fun r c v hrc => he r c v ((hv r c) ▸ hrc), hva⟩
  · rintro ⟨he, hva⟩
    exact ⟨fun r c v hrc => he r c v ((hv r c).symm ▸ hrc), hva⟩

/-- Value-subgrid: every filled cell of `g` is filled identically in `h`. -/
def ValueSub (g h : Grid) : Prop :=
  ∀ (r c : Fin 9) (v : Fin 9), (g r c).value = some v → (h r c).value = some v

theorem consistent_mono {g h : Grid} (hsub : ValueSub g h) (hcons : Consistent h) :
    Consistent g := by
  intro p q v hne hunit hp hq
  exact hcons p q v hne hunit (hsub p.1 p.2 v hp) (hsub q.1 q.2 v hq)

/-- A concrete valid full assignment, witnessing that the empty grid has at
least one solution. -/
def canonicalAssign : Assignment := fun r c =>
  ⟨(3 * (r.val % 3) + r.val / 3 + c.val) % 9, Nat.mod_lt _ (by norm_num)⟩

set_option maxHeartbeats 1000000 in
theorem canonicalAssign_valid : ValidAssign canonicalAssign := by decide

theorem Nsols_empty_pos : 1 ≤ Nsols createEmptyGrid := by
  rw [Nsols]
  refine Finset.card_pos.mpr ⟨canonicalAssign, ?_⟩
  unfold solsOf
  simp only [Finset.mem_filter, Finset.mem_univ, true_and]
  refine ⟨?_, canonicalAssign_valid⟩
  intro r c v h
  exact absurd h (by simp [createEmptyGrid])

theorem consistent_empty : Consistent createEmptyGrid := by
  intro p q v _ _ hp
  exact absurd hp (by simp [createEmptyGrid])

namespace GameLogic1

/-- Embedding of `grid[i][j].isFixed = true` for every cell (step 2 of `generatePuzzle`). -/
def markAllFixed (g : Grid) : Grid := fun r c => ⟨(g r c).value, true⟩

/-- Position decoding `row = floor(pos / 9)`, `col = pos % 9`.  Every position produced by the
generator is `< 81`, so the outer `% 9` on the row is the identity there. -/
def toPos (p : Nat) : Fin 9 × Fin 9 :=
  (⟨p / 9 % 9, Nat.mod_lt _ (by norm_num)⟩, ⟨p % 9, Nat.mod_lt _ (by norm_num)⟩)

/-- The removal loop of the first module's `generatePuzzle`: for each
shuffled position, clear the cell and unfix it, count solutions with limit
2 (threading the mutable grid through the counting call), restore the cell
when the count is not exactly 1, and stop once `removed` reaches the
target. -/
def removeLoop (target : Nat) : List (Fin 9 × Fin 9) → Nat → Grid → Grid
  | [], _, g => g
  | pos :: rest, removed, g =>
    if target ≤ removed then g
    else
      let temp := (g pos.1 pos.2).value
      let g2 := writeFixed (writeVal g pos.1 pos.2 none) pos.1 pos.2 false
      let res := countSolutionsS g2 2
      if res.1 ≠ 1 then
        removeLoop target rest removed
          (writeFixed (writeVal res.2 pos.1 pos.2 temp) pos.1 pos.2 true)
      else
        removeLoop target rest (removed + 1) res.2

/-- Embedding of `generatePuzzle(difficulty)` of the first module, with the random tape
explicit: generate a complete solution from the empty grid (the boolean
result is discarded, as in the source), mark every cell fixed, shuffle the
81 positions, and run the removal loop. -/
def generatePuzzle (d : Difficulty) (tape : Nat → Nat) : Grid :=
  let gen := generateSolutionS tape 0 createEmptyGrid
  let g2 := markAllFixed gen.2.1
  let sh := shuffle tape gen.2.2 (List.range 81)
  removeLoop (cellsToRemove d) (sh.1.map toPos) 0 g2

end GameLogic1

theorem ValueSub_trans {g h k : Grid} (h1 : ValueSub g h) (h2 : ValueSub h k) : ValueSub g k :=
  fun r c v hv => h2 r c v (h1 r c v hv)


theorem writeVal_at (g : Grid) (r c : Fin 9) (v : Option (Fin 9)) :
    writeVal g r c v r c = ⟨v, (g r c).isFixed⟩ := by
  unfold writeVal
  rw [if_pos ⟨rfl, rfl⟩]

theorem writeVal_ne (g : Grid) (r c : Fin 9) (v : Option (Fin 9)) {r' c' : Fin 9}
    (h : ¬(r' = r ∧ c' = c)) : writeVal g r c v r' c' = g r' c' := by
  unfold writeVal
  rw [if_neg h]

theorem writeFixed_at (g : Grid) (r c : Fin 9) (b : Bool) :
    writeFixed g r c b r c = ⟨(g r c).value, b⟩ := by
  unfold writeFixed
  rw [if_pos ⟨rfl, rfl⟩]

theorem writeFixed_ne (g : Grid) (r c : Fin 9) (b : Bool) {r' c' : Fin 9}
    (h : ¬(r' = r ∧ c' = c)) : writeFixed g r c b r' c' = g r' c' := by
  unfold writeFixed
  rw [if_neg h]

/-- Clearing and unfixing a cell, cell-level description. -/
theorem clear_cell_at (g : Grid) (r c : Fin 9) :
    (writeFixed (writeVal g r c none) r c false) r c = ⟨none, false⟩ := by
  rw [writeFixed_at, writeVal_at]

theorem clear_cell_ne (g : Grid) (r c : Fin 9) {r' c' : Fin 9}
    (h : ¬(r' = r ∧ c' = c)) :
    (writeFixed (writeVal g r c none) r c false) r' c' = g r' c' := by
  rw [writeFixed_ne _ _ _ _ h, writeVal_ne _ _ _ _ h]

/-- Restoring the cleared cell (`value = temp; isFixed = true`) recovers the
original grid exactly, provided the cell was fixed there. -/
theorem restore_id {g : Grid} {r c : Fin 9} (hfx : (g r c).isFixed = true) :
    writeFixed (writeVal (writeFixed (writeVal g r c none) r c false) r c
      ((g r c).value)) r c true = g := by
  funext r' c'
  by_cases hrc : r' = r ∧ c' = c
  · obtain ⟨h1, h2⟩ := hrc
    subst h1
    subst h2
    rw [writeFixed_at, writeVal_at]
    simp only
    cases hgc : g r' c' with
    | mk val fx =>
      rw [hgc] at hfx
      simp only at hfx
      rw [hfx]
  · rw [writeFixed_ne _ _ _ _ hrc, writeVal_ne _ _ _ _ hrc,
      clear_cell_ne _ _ _ hrc]

namespace GameLogic1

/-- Loop invariant of the removal phase: the grid is a value-subgrid of the
full solution `base`, has exactly one completion, and a cell is fixed
exactly when it is filled. -/
def PuzzleInv (base g : Grid) : Prop :=
  ValueSub g base ∧ Nsols g = 1 ∧
    ∀ r c : Fin 9, (g r c).isFixed = true ↔ (g r c).value ≠ none

theorem removeLoop_inv (target : Nat) (base : Grid) (hbase : Consistent base) :
    ∀ (positions : List (Fin 9 × Fin 9)) (removed : Nat) (g : Grid),
      PuzzleInv base g →
      PuzzleInv base (removeLoop target positions removed g) := by
  intro positions
  induction positions with
  | nil => intro removed g hinv; exact hinv
  | cons pos rest ih =>
    intro removed g hinv
    obtain ⟨r, c⟩ := pos
    obtain ⟨hsub, hone, hfix⟩ := hinv
    rw [removeLoop]
    by_cases hbreak : target ≤ removed
    · rw [if_pos hbreak]
      exact ⟨hsub, hone, hfix⟩
    · rw [if_neg hbreak]
      dsimp only
      set g2 := writeFixed (writeVal g r c none) r c false with hg2
      have hg2v : ∀ r' c' : Fin 9, (g2 r' c').value =
          if r' = r ∧ c' = c then none else (g r' c').value := by
        intro r' c'
        by_cases hrc : r' = r ∧ c' = c
        · obtain ⟨h1, h2⟩ := hrc
          subst h1
          subst h2
          rw [if_pos ⟨rfl, rfl⟩, hg2, clear_cell_at]
        · rw [if_neg hrc, hg2, clear_cell_ne _ _ _ hrc]
      have hg2sub : ValueSub g2 g := by
        intro r' c' v hv
        rw [hg2v] at hv
        by_cases hrc : r' = r ∧ c' = c
        · rw [if_pos hrc] at hv
          exact absurd hv (by simp)
        · rw [if_neg hrc] at hv
          exact hv
      have hconsg2 : Consistent g2 :=
        consistent_mono (ValueSub_trans hg2sub hsub) hbase
      have hsnd : (countSolutionsS g2 2).2 = g2 := countSolutionsF_snd _ _ _
      have hfst : (countSolutionsS g2 2).1 = min (Nsols g2) 2 :=
        countSolutionsF_count _ _ _ hconsg2 le_rfl (by norm_num)
      by_cases hres : (countSolutionsS g2 2).1 ≠ 1
      · rw [if_pos hres]
        have htemp : (g r c).value ≠ none := by
          intro hnone
          apply hres
          have hfxfalse : (g r c).isFixed = false := by
            cases hx : (g r c).isFixed
            · rfl
            · exact absurd hnone ((hfix r c).mp hx)
          have hg2g : g2 = g := by
            rw [hg2, writeVal_none_id hnone, writeFixed_id hfxfalse]
          rw [hfst, hg2g, hone]
          simp
        have hfxtrue : (g r c).isFixed = true := (hfix r c).mpr htemp
        have hrest : writeFixed (writeVal (countSolutionsS g2 2).2 r c
            ((g r c).value)) r c true = g := by
          rw [hsnd, hg2]
          exact restore_id hfxtrue
        rw [hrest]
        exact ih removed g ⟨hsub, hone, hfix⟩
      · rw [if_neg hres]
        rw [not_not] at hres
        have hone2 : Nsols g2 = 1 := by
          rw [hfst] at hres
          omega
        rw [hsnd]
        refine ih (removed + 1) g2 ⟨ValueSub_trans hg2sub hsub, hone2, ?_⟩
        intro r' c'
        by_cases hrc : r' = r ∧ c' = c
        · obtain ⟨h1, h2⟩ := hrc
          subst h1
          subst h2
          rw [hg2, clear_cell_at]
          simp
        · rw [hg2, clear_cell_ne _ _ _ hrc]
          rw [hg2] at hg2v
          exact hfix r' c'

end GameLogic1

namespace GameLogic1

theorem removeLoop_numEmpty (target : Nat) :
    ∀ (positions : List (Fin 9 × Fin 9)) (removed : Nat) (g : Grid),
      numEmpty g ≤ removed → removed ≤ target →
      numEmpty (removeLoop target positions removed g) ≤ target := by
  intro positions
  induction positions with
  | nil =>
    intro removed g h1 h2
    rw [removeLoop]
    omega
  | cons pos rest ih =>
    intro removed g h1 h2
    obtain ⟨r, c⟩ := pos
    rw [removeLoop]
    by_cases hbreak : target ≤ removed
    · rw [if_pos hbreak]
      omega
    · rw [if_neg hbreak]
      dsimp only
      set g2 := writeFixed (writeVal g r c none) r c false with hg2
      have hg2n : numEmpty g2 ≤ numEmpty g + 1 := by
        rw [hg2, numEmpty_writeFixed]
        cases hv : (g r c).value with
        | none =>
          rw [writeVal_none_id hv]
          omega
        | some v =>
          rw [numEmpty_writeVal_none hv]
      have hsnd : (countSolutionsS g2 2).2 = g2 := countSolutionsF_snd _ _ _
      by_cases hres : (countSolutionsS g2 2).1 ≠ 1
      · rw [if_pos hres]
        have hrestn : numEmpty (writeFixed (writeVal (countSolutionsS g2 2).2
            r c ((g r c).value)) r c true) = numEmpty g := by
          rw [hsnd]
          apply numEmpty_congr
          intro r' c'
          rw [writeFixed_value, writeVal_value]
          by_cases hrc : r' = r ∧ c' = c
          · obtain ⟨e1, e2⟩ := hrc
            subst e1
            subst e2
            rw [if_pos ⟨rfl, rfl⟩]
          · rw [if_neg hrc, hg2, clear_cell_ne _ _ _ hrc]
        have := ih removed (writeFixed (writeVal (countSolutionsS g2 2).2
            r c ((g r c).value)) r c true) (by omega) h2
        exact this
      · rw [if_neg hres, hsnd]
        exact ih (removed + 1) g2 (by omega) (by omega)

theorem markAllFixed_value (g : Grid) (r c : Fin 9) :
    (markAllFixed g r c).value = (g r c).value := rfl

/-- The generated full solution: success of `generateSolution` on the empty
grid, and the resulting grid is full and consistent. -/
theorem generateSolution_on_empty (tape : Nat → Nat) :
    (generateSolutionS tape 0 createEmptyGrid).1 = true ∧
      numEmpty (generateSolutionS tape 0 createEmptyGrid).2.1 = 0 ∧
      Consistent (generateSolutionS tape 0 createEmptyGrid).2.1 := by
  have hsucc := generateSolutionF_success tape (numEmpty createEmptyGrid) 0
    createEmptyGrid consistent_empty le_rfl Nsols_empty_pos
  have hprops := generateSolutionF_success_props tape (numEmpty createEmptyGrid)
    0 createEmptyGrid consistent_empty le_rfl hsucc
  exact ⟨hsucc, hprops.1, hprops.2⟩

theorem generatePuzzle_inv (d : Difficulty) (tape : Nat → Nat) :
    PuzzleInv (markAllFixed (generateSolutionS tape 0 createEmptyGrid).2.1)
      (generatePuzzle d tape) ∧
    Consistent (markAllFixed (generateSolutionS tape 0 createEmptyGrid).2.1) := by
  obtain ⟨hsucc, hfull, hcons⟩ := generateSolution_on_empty tape
  set g1 := (generateSolutionS tape 0 createEmptyGrid).2.1 with hg1
  set g2 := markAllFixed g1 with hg2def
  have hvals : ∀ r c : Fin 9, (g2 r c).value = (g1 r c).value := by
    intro r c
    rw [hg2def]
    rfl
  have hfull2 : numEmpty g2 = 0 := by
    rw [numEmpty_congr hvals]
    exact hfull
  have hcons2 : Consistent g2 :=
    consistent_mono (fun r c v hv => (hvals r c) ▸ hv) hcons
  have hone2 : Nsols g2 = 1 := Nsols_of_full hfull2 hcons2
  have hinv0 : PuzzleInv g2 g2 := by
    refine ⟨fun r c v hv => hv, hone2, ?_⟩
    intro r c
    rw [numEmpty_eq_zero_iff] at hfull2
    simp only [hg2def, markAllFixed]
    simpa using hfull2 r c
  constructor
  · exact removeLoop_inv _ g2 hcons2 _ 0 g2 hinv0
  · exact hcons2

/-- Claim C1: for every difficulty and every outcome of the random source,
the grid returned by the counting-solver module's `generatePuzzle` has
exactly one constraint-satisfying completion, and running `countSolutions`
with limit 2 on it yields exactly 1. -/
theorem generatePuzzle_unique (d : Difficulty) (tape : Nat → Nat) :
    Nsols (generatePuzzle d tape) = 1 ∧
      countSolutions (generatePuzzle d tape) 2 = 1 := by
  obtain ⟨⟨hsub, hone, _⟩, hconsbase⟩ := generatePuzzle_inv d tape
  refine ⟨hone, ?_⟩
  have hcons : Consistent (generatePuzzle d tape) :=
    consistent_mono hsub hconsbase
  have := countSolutionsF_count (numEmpty (generatePuzzle d tape))
    (generatePuzzle d tape) 2 hcons le_rfl (by norm_num)
  rw [countSolutions, countSolutionsS, this, hone]
  simp

/-- The number of empty cells in a generated grid never exceeds the
difficulty's removal target (helper for the claim-level statement). -/
theorem generatePuzzle_numEmpty_le (d : Difficulty) (tape : Nat → Nat) :
    numEmpty (generatePuzzle d tape) ≤ cellsToRemove d := by
  obtain ⟨hsucc, hfull, hcons⟩ := generateSolution_on_empty tape
  rw [generatePuzzle]
  apply removeLoop_numEmpty
  · have hvals : ∀ r c : Fin 9,
        (markAllFixed (generateSolutionS tape 0 createEmptyGrid).2.1 r c).value =
          ((generateSolutionS tape 0 createEmptyGrid).2.1 r c).value :=
      fun r c => rfl
    rw [numEmpty_congr hvals, hfull]
  · exact Nat.zero_le _

end GameLogic1

namespace GameLogic1

/-- Embedding of `checkWin(grid)` of the first module: the grid is completely filled,
and for each index `i` the row `i`, the column `i` and the box `i` have 9
distinct entries (the JS `Set` sizes). -/
def checkWin (g : Grid) : Bool :=
  ((List.finRange 9).all fun i => (List.finRange 9).all fun j =>
    !((g i j).value == none)) &&
  ((List.finRange 9).all fun i =>
    (((List.finRange 9).map fun j => (g i j).value).dedup.length == 9) &&
    (((List.finRange 9).map fun j => (g j i).value).dedup.length == 9) &&
    (((List.finRange 9).map fun j =>
      (g ⟨i.val / 3 * 3 + j.val / 3, by omega⟩
         ⟨i.val % 3 * 3 + j.val % 3, by omega⟩).value).dedup.length == 9))

end GameLogic1

namespace GameLogic2

/-- Embedding of `checkWin(grid)` of the second module: only checks that every cell is
filled; no row/column/box constraint is examined. -/
def checkWin (g : Grid) : Bool :=
  (List.finRange 9).all fun row => (List.finRange 9).all fun col =>
    !((g row col).value == none)

end GameLogic2

/-- The `j`-th cell of box `b`, in the enumeration order used by the
checker: row `3*(b/3) + j/3`, column `3*(b%3) + j%3`. -/
def boxCell (b j : Fin 9) : Fin 9 × Fin 9 :=
  (⟨b.val / 3 * 3 + j.val / 3, by omega⟩, ⟨b.val % 3 * 3 + j.val % 3, by omega⟩)

/-- The specification's win condition: no empty cells, and every row,
column and box contains each of the nine colors exactly once. -/
def SolvedGrid (g : Grid) : Prop :=
  (∀ r c : Fin 9, (g r c).value ≠ none) ∧
  (∀ r v : Fin 9,
    (Finset.univ.filter fun c : Fin 9 => (g r c).value = some v).card = 1) ∧
  (∀ c v : Fin 9,
    (Finset.univ.filter fun r : Fin 9 => (g r c).value = some v).card = 1) ∧
  (∀ b v : Fin 9,
    (Finset.univ.filter fun j : Fin 9 =>
      (g (boxCell b j).1 (boxCell b j).2).value = some v).card = 1)

instance (g : Grid) : Decidable (SolvedGrid g) := by
  unfold SolvedGrid; infer_instance

theorem dedup_nine_iff (h : Fin 9 → Option (Fin 9))
    (hnone : ∀ j, h j ≠ none) :
    ((List.finRange 9).map h).dedup.length = 9 ↔
      ∀ v : Fin 9, (Finset.univ.filter fun j => h j = some v).card = 1 := by
  have hset : ((List.finRange 9).map h).toFinset = Finset.univ.image h := by
    ext x
    simp [List.mem_map]
  rw [← List.card_toFinset, hset]
  have hsub : Finset.univ.image h ⊆ Finset.univ.image some := by
    intro x hx
    rw [Finset.mem_image] at hx
    obtain ⟨j, _, hj⟩ := hx
    cases hxv : h j with
    | none => exact absurd hxv (hnone j)
    | some w =>
      rw [Finset.mem_image]
      exact ⟨w, Finset.mem_univ w, by rw [← hj, hxv]⟩
  have hcardsome : (Finset.univ.image (some : Fin 9 → Option (Fin 9))).card = 9 := by
    rw [Finset.card_image_of_injective _ (Option.some_injective _)]
    simp
  constructor
  · intro hcard v
    have hinj : Set.InjOn h ↑(Finset.univ : Finset (Fin 9)) := by
      rw [← Finset.card_image_iff]
      rw [hcard]
      simp
    have heq : Finset.univ.image h = Finset.univ.image some :=
      Finset.eq_of_subset_of_card_le hsub (by omega)
    have hv : (some v) ∈ Finset.univ.image h := by
      rw [heq, Finset.mem_image]
      exact ⟨v, Finset.mem_univ v, rfl⟩
    rw [Finset.mem_image] at hv
    obtain ⟨j0, _, hj0⟩ := hv
    rw [Finset.card_eq_one]
    refine ⟨j0, ?_⟩
    ext j
    simp only [Finset.mem_filter, Finset.mem_univ, true_and,
      Finset.mem_singleton]
    constructor
    · intro hj
      exact hinj (Finset.mem_coe.mpr (Finset.mem_univ j))
        (Finset.mem_coe.mpr (Finset.mem_univ j0)) (by rw [hj, hj0])
    · intro hj
      rw [hj, hj0]
  · intro hv
    have heq : Finset.univ.image h = Finset.univ.image some := by
      apply Finset.Subset.antisymm hsub
      intro x hx
      rw [Finset.mem_image] at hx
      obtain ⟨v, _, hvx⟩ := hx
      have h1 := hv v
      rw [Finset.card_eq_one] at h1
      obtain ⟨j0, hj0⟩ := h1
      have : j0 ∈ Finset.univ.filter fun j => h j = some v := by
        rw [hj0]
        exact Finset.mem_singleton_self j0
      rw [Finset.mem_filter] at this
      rw [Finset.mem_image]
      exact ⟨j0, Finset.mem_univ j0, by rw [this.2, hvx]⟩
    rw [heq, hcardsome]

theorem checkWin1_iff (g : Grid) :
    GameLogic1.checkWin g = true ↔ SolvedGrid g := by
  unfold GameLogic1.checkWin SolvedGrid
  simp only [Bool.and_eq_true, List.all_eq_true, List.mem_finRange,
    Bool.not_eq_true', beq_eq_false_iff_ne, beq_iff_eq, ne_eq, true_implies]
  constructor
  · rintro ⟨hfill, hunits⟩
    refine ⟨fun r c => hfill r c, ?_, ?_, ?_⟩
    · intro r v
      exact (dedup_nine_iff (fun j => (g r j).value)
        (fun j => hfill r j)).mp (hunits r).1.1 v
    · intro c v
      exact (dedup_nine_iff (fun j => (g j c).value)
        (fun j => hfill j c)).mp (hunits c).1.2 v
    · intro b v
      have hres := (dedup_nine_iff
        (fun j => (g ⟨b.val / 3 * 3 + j.val / 3, by omega⟩
          ⟨b.val % 3 * 3 + j.val % 3, by omega⟩).value)
        (fun j => hfill _ _)).mp (hunits b).2 v
      simpa [boxCell] using hres
  · rintro ⟨hfill, hrows, hcols, hboxes⟩
    refine ⟨fun i j => hfill i j, ?_⟩
    intro i
    refine ⟨⟨?_, ?_⟩, ?_⟩
    · exact (dedup_nine_iff (fun j => (g i j).value)
        (fun j => hfill i j)).mpr (hrows i)
    · exact (dedup_nine_iff (fun j => (g j i).value)
        (fun j => hfill j i)).mpr (hcols i)
    · refine (dedup_nine_iff
        (fun j => (g ⟨i.val / 3 * 3 + j.val / 3, by omega⟩
          ⟨i.val % 3 * 3 + j.val % 3, by omega⟩).value)
        (fun j => hfill _ _)).mpr ?_
      intro v
      have := hboxes i v
      simpa [boxCell] using this

namespace GameLogic2

/-- The row-major first-empty-cell scan inlined in the second module's
`solveGrid` and `findSolutions` (identical to the first module's helper). -/
def findEmptyCell (g : Grid) : Option (Fin 9 × Fin 9) :=
  (List.finRange 9).findSome? fun row =>
    ((List.finRange 9).find? fun col => (g row col).value == none).map
      fun col => (row, col)

theorem findEmptyCell_eq : findEmptyCell = GameLogic1.findEmptyCell := rfl

/-- The candidate loop of the second module's `solveGrid` (uses
`checkPlacement`, deterministic candidate order `0..8`). -/
def sgLoop (next : Grid → Bool × Grid) (r c : Fin 9) :
    List (Fin 9) → Grid → Bool × Grid
  | [], g => (false, g)
  | n :: rest, g =>
    if checkPlacement g r c n then
      let res := next (writeVal g r c (some n))
      if res.1 then res
      else sgLoop next r c rest (writeVal res.2 r c none)
    else sgLoop next r c rest g

/-- Embedding of `solveGrid(grid)`, fuel-indexed, returning the success flag and the
final grid state. -/
def solveGridF : Nat → Grid → Bool × Grid
  | fuel, g =>
    match findEmptyCell g with
    | none => (true, g)
    | some (r, c) =>
      match fuel with
      | 0 => (false, g)
      | fuel' + 1 => sgLoop (fun g' => solveGridF fuel' g') r c (List.finRange 9) g

/-- Embedding of `solveGrid(grid)` with the fuel instantiated. -/
def solveGridS (g : Grid) : Bool × Grid := solveGridF (numEmpty g) g

/-- The candidate loop of `findSolutions`: on each legal candidate, assign,
recurse (accumulating found solutions), retract, and return early once more
than one solution has been found. -/
def fsLoop (next : Grid → List Grid → List Grid × Grid) (r c : Fin 9) :
    List (Fin 9) → Grid → List Grid → List Grid × Grid
  | [], g, acc => (acc, g)
  | n :: rest, g, acc =>
    if checkPlacement g r c n then
      let res := next (writeVal g r c (some n)) acc
      let g2 := writeVal res.2 r c none
      if 1 < res.1.length then (res.1, g2)
      else fsLoop next r c rest g2 res.1
    else fsLoop next r c rest g acc

/-- Embedding of `findSolutions(grid, solutions)`, fuel-indexed: a full grid appends a
(deep copy of the) grid to the accumulated solution list. -/
def findSolutionsF : Nat → Grid → List Grid → List Grid × Grid
  | fuel, g, acc =>
    match findEmptyCell g with
    | none => (acc ++ [g], g)
    | some (r, c) =>
      match fuel with
      | 0 => (acc, g)
      | fuel' + 1 =>
        fsLoop (fun g' acc' => findSolutionsF fuel' g' acc') r c
          (List.finRange 9) g acc

/-- Embedding of `hasUniqueSolution(grid)`: run `findSolutions` from an empty solution
list and test whether exactly one solution was recorded. -/
def hasUniqueSolution (g : Grid) : Bool :=
  decide ((findSolutionsF (numEmpty g) g []).1.length = 1)

/-- Embedding of `fillBox(grid, startRow, startCol)`: shuffle `0..8` and write the nine
numbers row-major into the box.  All call sites use `startRow = startCol ∈
{0, 3, 6}`, so the `% 9` coercions are the identity on every touched
index. -/
def fillBox (tape : Nat → Nat) (k : Nat) (g : Grid) (startRow startCol : Nat) :
    Grid × Nat :=
  let sh := shuffle tape k (List.finRange 9)
  ((List.range 9).foldl (fun gg idx =>
    writeVal gg ⟨(startRow + idx / 3) % 9, Nat.mod_lt _ (by norm_num)⟩
      ⟨(startCol + idx % 3) % 9, Nat.mod_lt _ (by norm_num)⟩
      (some (sh.1.getD idx 0))) g, sh.2)

/-- The final marking pass: every non-null cell becomes fixed. -/
def markFilledFixed (g : Grid) : Grid := fun r c =>
  if (g r c).value ≠ none then ⟨(g r c).value, true⟩ else g r c

/-- The removal pass of the second module: clear each of the first
`cellsToRemove` shuffled positions, and restore the value when
`hasUniqueSolution` fails on (a deep copy of) the cleared grid. -/
def removePass (target : Nat) (positions : List (Fin 9 × Fin 9)) (g : Grid) :
    Grid :=
  (positions.take target).foldl (fun gg pos =>
    let backup := (gg pos.1 pos.2).value
    let gg1 := writeVal gg pos.1 pos.2 none
    if hasUniqueSolution gg1 then gg1 else writeVal gg1 pos.1 pos.2 backup) g

/-- Embedding of `generatePuzzle(difficulty)` of the second module, tape-explicit: fill
the three diagonal boxes, solve the rest (result discarded, as in the
source), clear cells among the first `target` shuffled positions while
uniqueness survives, then mark all remaining numbers fixed. -/
def generatePuzzle (d : Difficulty) (tape : Nat → Nat) : Grid :=
  let f0 := fillBox tape 0 createEmptyGrid 0 0
  let f1 := fillBox tape f0.2 f0.1 3 3
  let f2 := fillBox tape f1.2 f1.1 6 6
  let sres := solveGridS f2.1
  let sh := shuffle tape f2.2 ((List.range 81).map GameLogic1.toPos)
  markFilledFixed (removePass (cellsToRemove d) sh.1 sres.2)

end GameLogic2

namespace GameLogic2

theorem findEmptyCell_empty2 {g : Grid} {r c : Fin 9}
    (h : findEmptyCell g = some (r, c)) : (g r c).value = none := by
  rw [findEmptyCell_eq] at h
  exact findEmptyCell_empty h

theorem sgLoop_false (next : Grid → Bool × Grid) (r c : Fin 9)
    (hnext : ∀ g', (next g').1 = false → (next g').2 = g') :
    ∀ (nums : List (Fin 9)) (g : Grid), (g r c).value = none →
      (sgLoop next r c nums g).1 = false →
      (sgLoop next r c nums g).2 = g := by
  intro nums
  induction nums with
  | nil => intro g _ _; rfl
  | cons n rest ih =>
    intro g hempty hfail
    rw [sgLoop] at hfail ⊢
    by_cases hv : checkPlacement g r c n
    · rw [if_pos hv] at hfail ⊢
      simp only at hfail ⊢
      by_cases hres : (next (writeVal g r c (some n))).1 = true
      · rw [if_pos hres] at hfail
        rw [if_pos hres]
        exact absurd hfail (by simp [hres])
      · rw [if_neg hres] at hfail ⊢
        have hrest := hnext (writeVal g r c (some n)) (by simpa using hres)
        rw [hrest, writeVal_cancel hempty] at hfail ⊢
        exact ih _ hempty hfail
    · rw [if_neg hv] at hfail ⊢
      exact ih _ hempty hfail

theorem solveGridF_false :
    ∀ (fuel : Nat) (g : Grid), (solveGridF fuel g).1 = false →
      (solveGridF fuel g).2 = g := by
  intro fuel
  induction fuel with
  | zero =>
    intro g hfail
    rw [solveGridF] at hfail ⊢
    cases hfind : findEmptyCell g with
    | none => rfl
    | some rc => cases rc; rfl
  | succ fuel' ih =>
    intro g
    rw [solveGridF]
    cases hfind : findEmptyCell g with
    | none =>
      intro hfail
      exact absurd hfail (by simp)
    | some rc =>
      cases rc with
      | mk r c =>
        intro hfail
        exact sgLoop_false _ r c (fun g' => ih g') _ _
          (findEmptyCell_empty2 hfind) hfail

theorem sgLoop_isFixed (next : Grid → Bool × Grid) (r c : Fin 9)
    (hnext : ∀ g' r' c', ((next g').2 r' c').isFixed = (g' r' c').isFixed) :
    ∀ (nums : List (Fin 9)) (g : Grid) (r' c' : Fin 9),
      ((sgLoop next r c nums g).2 r' c').isFixed = (g r' c').isFixed := by
  intro nums
  induction nums with
  | nil => intro g r' c'; rfl
  | cons n rest ih =>
    intro g r' c'
    rw [sgLoop]
    by_cases hv : checkPlacement g r c n
    · rw [if_pos hv]
      simp only
      by_cases hres : (next (writeVal g r c (some n))).1 = true
      · rw [if_pos hres]
        rw [hnext, writeVal_isFixed]
      · rw [if_neg hres]
        rw [ih, writeVal_isFixed, hnext, writeVal_isFixed]
    · rw [if_neg hv]
      exact ih g r' c'

theorem solveGridF_isFixed :
    ∀ (fuel : Nat) (g : Grid) (r' c' : Fin 9),
      ((solveGridF fuel g).2 r' c').isFixed = (g r' c').isFixed := by
  intro fuel
  induction fuel with
  | zero =>
    intro g r' c'
    rw [solveGridF]
    cases hfind : findEmptyCell g with
    | none => rfl
    | some rc => cases rc; rfl
  | succ fuel' ih =>
    intro g r' c'
    rw [solveGridF]
    cases hfind : findEmptyCell g with
    | none => rfl
    | some rc =>
      cases rc with
      | mk r c => exact sgLoop_isFixed _ r c (fun g' => ih g') _ g r' c'

end GameLogic2

/-- The cell invariant of the data model: a fixed cell always holds a
value. -/
def FixedInv (g : Grid) : Prop :=
  ∀ r c : Fin 9, (g r c).isFixed = true → (g r c).value ≠ none

instance (g : Grid) : Decidable (FixedInv g) := by
  unfold FixedInv; infer_instance

theorem foldl_isFixed {α : Type} (step : Grid → α → Grid)
    (hstep : ∀ (g : Grid) (a : α) (r c : Fin 9),
      ((step g a) r c).isFixed = (g r c).isFixed) :
    ∀ (l : List α) (g : Grid) (r c : Fin 9),
      ((l.foldl step g) r c).isFixed = (g r c).isFixed := by
  intro l
  induction l with
  | nil => intro g r c; rfl
  | cons a rest ih =>
    intro g r c
    rw [List.foldl_cons, ih, hstep]

namespace UIOps

/-- The `handleSolve` snapshot: copy the grid, marking every currently
non-null cell as fixed (`isFixed: cell.value !== null`). -/
def snapshotFixed (g : Grid) : Grid := fun r c =>
  ⟨(g r c).value, ((g r c).value).isSome⟩

/-- The candidate loop of the solver local to `handleSolve` (structurally
the `solveGrid` backtracker, using the imported `checkPlacement`; the two
modules' `checkPlacement` agree, see `checkPlacement_agree`). -/
def hsLoop (next : Grid → Bool × Grid) (r c : Fin 9) :
    List (Fin 9) → Grid → Bool × Grid
  | [], g => (false, g)
  | n :: rest, g =>
    if GameLogic1.checkPlacement g r c n then
      let res := next (writeVal g r c (some n))
      if res.1 then res
      else hsLoop next r c rest (writeVal res.2 r c none)
    else hsLoop next r c rest g

/-- The solver local to `handleSolve`, fuel-indexed. -/
def hsSolveF : Nat → Grid → Bool × Grid
  | fuel, g =>
    match GameLogic1.findEmptyCell g with
    | none => (true, g)
    | some (r, c) =>
      match fuel with
      | 0 => (false, g)
      | fuel' + 1 => hsLoop (fun g' => hsSolveF fuel' g') r c (List.finRange 9) g

/-- The `handleSolve` solver with the fuel instantiated. -/
def hsSolveS (g : Grid) : Bool × Grid := hsSolveF (numEmpty g) g

/-- Embedding of `handleSolve`: snapshot with non-null cells fixed, solve; on success
the solved grid replaces the state, on failure the grid is unchanged. -/
def handleSolve (g : Grid) : Grid :=
  let res := hsSolveS (snapshotFixed g)
  if res.1 then res.2 else g

/-- Embedding of `handleColorSelect(colorIndex)`: no selected cell or a fixed selected
cell leaves the grid unchanged; otherwise the color is written at the
selected cell `[x, y]` (i.e. column `x`, row `y`), regardless of the
`checkPlacement` feedback (the revert is commented out in the source). -/
def handleColorSelect (g : Grid) (sel : Option (Fin 9 × Fin 9))
    (colorIndex : Fin 9) : Grid :=
  match sel with
  | none => g
  | some (x, y) => if (g y x).isFixed then g else writeVal g y x (some colorIndex)

/-- Embedding of the `mousePressed` cell selection: only non-fixed cells become selected. -/
def mousePressedSelect (g : Grid) (sel : Option (Fin 9 × Fin 9))
    (cellX cellY : Fin 9) : Option (Fin 9 × Fin 9) :=
  if (g cellY cellX).isFixed then sel else some (cellX, cellY)

/-- The player-visible state: the grid and the selected cell. -/
structure UIState where
  grid : Grid
  selected : Option (Fin 9 × Fin 9)

/-- The player operations of the component. -/
inductive PlayerOp where
  | select (cellX cellY : Fin 9)
  | color (colorIndex : Fin 9)
  | solveHelp

/-- One player operation applied to the state (on a successful help-solve
the selection is cleared, as in the source). -/
def applyOp (s : UIState) : PlayerOp → UIState
  | .select x y => ⟨s.grid, mousePressedSelect s.grid s.selected x y⟩
  | .color v => ⟨handleColorSelect s.grid s.selected v, s.selected⟩
  | .solveHelp =>
    let res := hsSolveS (snapshotFixed s.grid)
    if res.1 then ⟨res.2, none⟩ else s

/-- A sequence of player operations. -/
def applyOps (s : UIState) (ops : List PlayerOp) : UIState :=
  ops.foldl applyOp s

end UIOps

namespace UIOps

theorem hsLoop_isFixed (next : Grid → Bool × Grid) (r c : Fin 9)
    (hnext : ∀ g' r' c', ((next g').2 r' c').isFixed = (g' r' c').isFixed) :
    ∀ (nums : List (Fin 9)) (g : Grid) (r' c' : Fin 9),
      ((hsLoop next r c nums g).2 r' c').isFixed = (g r' c').isFixed := by
  intro nums
  induction nums with
  | nil => intro g r' c'; rfl
  | cons n rest ih =>
    intro g r' c'
    rw [hsLoop]
    by_cases hv : GameLogic1.checkPlacement g r c n
    · rw [if_pos hv]
      simp only
      by_cases hres : (next (writeVal g r c (some n))).1 = true
      · rw [if_pos hres]
        rw [hnext, writeVal_isFixed]
      · rw [if_neg hres]
        rw [ih, writeVal_isFixed, hnext, writeVal_isFixed]
    · rw [if_neg hv]
      exact ih g r' c'

theorem hsSolveF_isFixed :
    ∀ (fuel : Nat) (g : Grid) (r' c' : Fin 9),
      ((hsSolveF fuel g).2 r' c').isFixed = (g r' c').isFixed := by
  intro fuel
  induction fuel with
  | zero =>
    intro g r' c'
    rw [hsSolveF]
    cases hfind : GameLogic1.findEmptyCell g with
    | none => rfl
    | some rc => cases rc; rfl
  | succ fuel' ih =>
    intro g r' c'
    rw [hsSolveF]
    cases hfind : GameLogic1.findEmptyCell g with
    | none => rfl
    | some rc =>
      cases rc with
      | mk r c => exact hsLoop_isFixed _ r c (fun g' => ih g') _ g r' c'

theorem hsLoop_filled (next : Grid → Bool × Grid) (r0 c0 : Fin 9)
    (hnext : ∀ (g' : Grid) (a b v : Fin 9), (g' a b).value = some v →
      ((next g').2 a b).value = some v) :
    ∀ (nums : List (Fin 9)) (g : Grid) (a b : Fin 9) (v : Fin 9),
      (g r0 c0).value = none → (g a b).value = some v →
      ((hsLoop next r0 c0 nums g).2 a b).value = some v := by
  intro nums
  induction nums with
  | nil => intro g a b v _ hfill; exact hfill
  | cons n rest ih =>
    intro g a b v hempty hfill
    have hne : ¬(a = r0 ∧ b = c0) := by
      rintro ⟨h1, h2⟩
      subst h1
      subst h2
      rw [hfill] at hempty
      exact absurd hempty (by simp)
    rw [hsLoop]
    by_cases hv : GameLogic1.checkPlacement g r0 c0 n
    · rw [if_pos hv]
      simp only
      have hset : (writeVal g r0 c0 (some n) a b).value = some v := by
        rw [writeVal_value, if_neg hne]
        exact hfill
      by_cases hres : (next (writeVal g r0 c0 (some n))).1 = true
      · rw [if_pos hres]
        exact hnext _ a b v hset
      · rw [if_neg hres]
        refine ih _ a b v ?_ ?_
        · rw [writeVal_value, if_pos ⟨rfl, rfl⟩]
        · rw [writeVal_value, if_neg hne]
          exact hnext _ a b v hset
    · rw [if_neg hv]
      exact ih g a b v hempty hfill

theorem hsSolveF_filled :
    ∀ (fuel : Nat) (g : Grid) (a b v : Fin 9), (g a b).value = some v →
      ((hsSolveF fuel g).2 a b).value = some v := by
  intro fuel
  induction fuel with
  | zero =>
    intro g a b v hfill
    rw [hsSolveF]
    cases hfind : GameLogic1.findEmptyCell g with
    | none => exact hfill
    | some rc => cases rc; exact hfill
  | succ fuel' ih =>
    intro g a b v hfill
    rw [hsSolveF]
    cases hfind : GameLogic1.findEmptyCell g with
    | none => exact hfill
    | some rc =>
      cases rc with
      | mk r c =>
        exact hsLoop_filled _ r c (fun g' => ih g') _ g a b v
          (findEmptyCell_empty hfind) hfill

/-- The two effects needed for the fixed-cell guarantees: one operation
preserves the cell invariant, and it never touches a fixed cell. -/
theorem applyOp_fixed (s : UIState) (op : PlayerOp) (hinv : FixedInv s.grid) :
    FixedInv (applyOp s op).grid ∧
      ∀ r c : Fin 9, (s.grid r c).isFixed = true →
        (applyOp s op).grid r c = s.grid r c := by
  cases op with
  | select x y => exact ⟨hinv, fun r c _ => rfl⟩
  | color v =>
    constructor
    · intro r c
      show ((handleColorSelect s.grid s.selected v) r c).isFixed = true →
        ((handleColorSelect s.grid s.selected v) r c).value ≠ none
      unfold handleColorSelect
      cases s.selected with
      | none => exact hinv r c
      | some xy =>
        obtain ⟨x, y⟩ := xy
        dsimp only
        by_cases hfx : (s.grid y x).isFixed
        · rw [if_pos hfx]
          exact hinv r c
        · rw [if_neg hfx]
          by_cases hrc : r = y ∧ c = x
          · obtain ⟨h1, h2⟩ := hrc
            subst h1
            subst h2
            rw [writeVal_at]
            simp
          · rw [writeVal_ne _ _ _ _ hrc]
            exact hinv r c
    · intro r c hfix
      show (handleColorSelect s.grid s.selected v) r c = s.grid r c
      unfold handleColorSelect
      cases s.selected with
      | none => rfl
      | some xy =>
        obtain ⟨x, y⟩ := xy
        dsimp only
        by_cases hfx : (s.grid y x).isFixed
        · rw [if_pos hfx]
        · rw [if_neg hfx]
          have hne : ¬(r = y ∧ c = x) := by
            rintro ⟨h1, h2⟩
            subst h1
            subst h2
            exact hfx hfix
          rw [writeVal_ne _ _ _ _ hne]
  | solveHelp =>
    dsimp only [applyOp]
    by_cases hres : (hsSolveS (snapshotFixed s.grid)).1 = true
    · rw [if_pos hres]
      have hfx : ∀ r c : Fin 9,
          ((hsSolveS (snapshotFixed s.grid)).2 r c).isFixed =
            ((s.grid r c).value).isSome := by
        intro r c
        rw [hsSolveS, hsSolveF_isFixed]
        rfl
      constructor
      · intro r c hfix
        rw [hfx] at hfix
        obtain ⟨v, hv⟩ := Option.isSome_iff_exists.mp hfix
        have : ((hsSolveS (snapshotFixed s.grid)).2 r c).value = some v := by
          rw [hsSolveS]
          apply hsSolveF_filled
          show ((snapshotFixed s.grid) r c).value = some v
          unfold snapshotFixed
          exact hv
        simp [this]
      · intro r c hfix
        have hv := hinv r c hfix
        obtain ⟨w, hw⟩ := Option.ne_none_iff_exists'.mp hv
        have hval : ((hsSolveS (snapshotFixed s.grid)).2 r c).value = some w := by
          rw [hsSolveS]
          apply hsSolveF_filled
          show ((snapshotFixed s.grid) r c).value = some w
          unfold snapshotFixed
          exact hw
        have hfx2 : ((hsSolveS (snapshotFixed s.grid)).2 r c).isFixed = true := by
          rw [hfx, hw]
          rfl
        show (hsSolveS (snapshotFixed s.grid)).2 r c = s.grid r c
        cases horig : s.grid r c with
        | mk val fx =>
          rw [horig] at hw hfix
          simp only at hw hfix
          cases hcur : (hsSolveS (snapshotFixed s.grid)).2 r c with
          | mk val2 fx2 =>
            rw [hcur] at hval hfx2
            simp only at hval hfx2
            rw [hval, hfx2, hw, hfix]
    · rw [if_neg hres]
      exact ⟨hinv, fun r c _ => rfl⟩

/-- Fixed cells survive any sequence of player operations. -/
theorem applyOps_fixed (ops : List PlayerOp) :
    ∀ (s : UIState), FixedInv s.grid →
      FixedInv (applyOps s ops).grid ∧
      ∀ r c : Fin 9, (s.grid r c).isFixed = true →
        (applyOps s ops).grid r c = s.grid r c := by
  induction ops with
  | nil => intro s hinv; exact ⟨hinv, fun r c _ => rfl⟩
  | cons op rest ih =>
    intro s hinv
    obtain ⟨hinv1, hpres1⟩ := applyOp_fixed s op hinv
    obtain ⟨hinv2, hpres2⟩ := ih (applyOp s op) hinv1
    refine ⟨hinv2, ?_⟩
    intro r c hfix
    have he1 := hpres1 r c hfix
    have hfix1 : ((applyOp s op).grid r c).isFixed = true := by
      rw [he1]
      exact hfix
    have he2 := hpres2 r c hfix1
    rw [applyOps, List.foldl_cons]
    rw [show (List.foldl applyOp (applyOp s op) rest) =
      applyOps (applyOp s op) rest from rfl]
    rw [he2, he1]

end UIOps

theorem checkPlacement_agree (g : Grid) (r c v : Fin 9) :
    GameLogic1.checkPlacement g r c v = GameLogic2.checkPlacement g r c v := by
  by_cases h : Conflict g r c v
  · have e1 : GameLogic1.checkPlacement g r c v = false :=
      Bool.eq_false_iff.mpr fun ht => (cp1_true_iff g r c v).mp ht h
    have e2 : GameLogic2.checkPlacement g r c v = false :=
      Bool.eq_false_iff.mpr fun ht => (cp2_true_iff g r c v).mp ht h
    rw [e1, e2]
  · rw [(cp1_true_iff g r c v).mpr h, (cp2_true_iff g r c v).mpr h]

namespace GameLogic2

theorem fillBox_isFixed (tape : Nat → Nat) (k : Nat) (g : Grid)
    (sr sc : Nat) (r c : Fin 9) :
    ((fillBox tape k g sr sc).1 r c).isFixed = (g r c).isFixed := by
  unfold fillBox
  exact foldl_isFixed _ (fun g' a r' c' => writeVal_isFixed g' _ _ _ r' c')
    _ g r c

theorem removePass_isFixed (target : Nat) (ps : List (Fin 9 × Fin 9))
    (g : Grid) (r c : Fin 9) :
    ((removePass target ps g) r c).isFixed = (g r c).isFixed := by
  unfold removePass
  refine foldl_isFixed _ ?_ _ g r c
  intro g' pos r' c'
  dsimp only
  by_cases hu : hasUniqueSolution (writeVal g' pos.1 pos.2 none) = true
  · rw [if_pos hu, writeVal_isFixed]
  · rw [if_neg hu, writeVal_isFixed, writeVal_isFixed]

theorem markFilledFixed_fixedInv {g : Grid}
    (h : ∀ r c : Fin 9, (g r c).isFixed = false) :
    FixedInv (markFilledFixed g) := by
  intro r c
  unfold markFilledFixed
  by_cases hv : (g r c).value ≠ none
  · rw [if_pos hv]
    exact fun _ => hv
  · rw [if_neg hv]
    intro hfix
    rw [h r c] at hfix
    exact absurd hfix (by simp)

/-- Claim C8, second module: the generated grid satisfies the cell
invariant regardless of the tape (even if the internal solve failed). -/
theorem generatePuzzle2_fixedInv (d : Difficulty) (tape : Nat → Nat) :
    FixedInv (generatePuzzle d tape) := by
  unfold generatePuzzle
  dsimp only
  apply markFilledFixed_fixedInv
  intro r c
  rw [removePass_isFixed]
  rw [solveGridS, solveGridF_isFixed]
  rw [fillBox_isFixed, fillBox_isFixed, fillBox_isFixed]
  rfl

end GameLogic2

namespace GameLogic1

theorem csLoop_le (fuel' : Nat)
    (hnext : ∀ (g' : Grid) (l' : Nat), 1 ≤ l' →
      (countSolutionsF fuel' g' l').1 ≤ l') (r c : Fin 9) :
    ∀ (nums : List (Fin 9)) (s l : Nat) (g : Grid), s < l →
      (csLoop (fun g' l' => countSolutionsF fuel' g' l') r c nums s l g).1 ≤ l := by
  intro nums
  induction nums with
  | nil =>
    intro s l g hs
    rw [csLoop]
    omega
  | cons n rest ih =>
    intro s l g hs
    rw [csLoop]
    by_cases hv : isValid g r c n
    · rw [if_pos hv]
      simp only
      have hinner : (countSolutionsF fuel' (writeVal g r c (some n)) (l - s)).1
          ≤ l - s := hnext _ _ (by omega)
      by_cases hbreak : l ≤ s + (countSolutionsF fuel'
          (writeVal g r c (some n)) (l - s)).1
      · rw [if_pos hbreak]
        omega
      · rw [if_neg hbreak]
        exact ih _ _ _ (by omega)
    · rw [if_neg hv]
      exact ih _ _ _ hs

theorem countSolutionsF_le :
    ∀ (fuel : Nat) (g : Grid) (l : Nat), 1 ≤ l →
      (countSolutionsF fuel g l).1 ≤ l := by
  intro fuel
  induction fuel with
  | zero =>
    intro g l hl
    rw [countSolutionsF]
    cases hfind : findEmptyCell g with
    | none => exact hl
    | some rc =>
      cases rc with
      | mk r c => exact Nat.zero_le l
  | succ fuel' ih =>
    intro g l hl
    rw [countSolutionsF]
    cases hfind : findEmptyCell g with
    | none => exact hl
    | some rc =>
      cases rc with
      | mk r c =>
        exact csLoop_le fuel' (fun g' l' => ih g' l') r c _ 0 l g (by omega)

end GameLogic1

/-- A fully filled grid violating every constraint: each cell holds color 0
and is fixed. -/
def badGrid : Grid := fun _ _ => ⟨some 0, true⟩

/-- Claim C2: `checkWin(grid)` is true iff the grid has zero empty cells
and every row, column and 3x3 box holds each color exactly once.  This is
the case for the first module's `checkWin`; the second module's `checkWin`
returns `true` for the all-zeros filled grid, which violates every
constraint — the code bug behind this claim. -/
theorem checkWin_iff_and_bug :
    (∀ g : Grid, GameLogic1.checkWin g = true ↔ SolvedGrid g) ∧
    GameLogic2.checkWin badGrid = true ∧
    ¬ SolvedGrid badGrid ∧
    GameLogic1.checkWin badGrid = false := by
  refine ⟨checkWin1_iff, by decide, by decide, by decide⟩

theorem Nsols_badGrid : Nsols badGrid = 0 := by
  rw [Nsols, Finset.card_eq_zero]
  rw [Finset.eq_empty_iff_forall_not_mem]
  intro f hf
  unfold solsOf at hf
  simp only [Finset.mem_filter, Finset.mem_univ, true_and] at hf
  obtain ⟨hext, hvalid⟩ := hf
  have h00 : f 0 0 = 0 := hext 0 0 0 rfl
  have h01 : f 0 1 = 0 := hext 0 1 0 rfl
  exact hvalid (0, 0) (0, 1) (by decide) (Or.inl rfl) (by rw [h00, h01])

/-- Claim C4 counterexample: on the all-zeros filled grid the counting
solver returns 1, but the number of constraint-satisfying completions is 0,
so `countSolutions` is not `min`(completions, limit) on every grid. -/
theorem countSolutions_spec_counterexample :
    ¬ (GameLogic1.countSolutions badGrid 2 = min (Nsols badGrid) 2) := by
  have h1 : GameLogic1.countSolutions badGrid 2 = 1 := by decide
  rw [h1, Nsols_badGrid]
  norm_num

/-- Claim C4 (amended): for every limit ≥ 1 the counting solver never
returns more than the limit, and on every grid whose filled cells are
mutually consistent it returns the minimum of the number of
constraint-satisfying completions and the limit. -/
theorem countSolutions_min_amended (g : Grid) (l : Nat) (hl : 1 ≤ l) :
    GameLogic1.countSolutions g l ≤ l ∧
      (Consistent g → GameLogic1.countSolutions g l = min (Nsols g) l) := by
  constructor
  · exact GameLogic1.countSolutionsF_le _ _ _ hl
  · intro hcons
    exact GameLogic1.countSolutionsF_count _ _ _ hcons le_rfl hl

/-- Witness for the amended claim C4 at the empty grid and limit 2. -/
theorem countSolutions_min_amended_witness :
    1 ≤ 2 ∧ Consistent createEmptyGrid ∧
      GameLogic1.countSolutions createEmptyGrid 2 ≤ 2 ∧
      GameLogic1.countSolutions createEmptyGrid 2 =
        min (Nsols createEmptyGrid) 2 :=
  ⟨by norm_num, consistent_empty,
    (countSolutions_min_amended createEmptyGrid 2 (by norm_num)).1,
    (countSolutions_min_amended createEmptyGrid 2 (by norm_num)).2
      consistent_empty⟩

/-- Claim C5: `countSolutions` always leaves the grid exactly as it found
it, and when `generateSolution` (first module) or `solveGrid` (second
module) fails, the grid is exactly its pre-call state — every tentative
assignment of the search is undone. -/
theorem search_restores_grid (g : Grid) (l : Nat) (tape : Nat → Nat) (k : Nat) :
    (GameLogic1.countSolutionsS g l).2 = g ∧
    ((GameLogic1.generateSolutionS tape k g).1 = false →
      (GameLogic1.generateSolutionS tape k g).2.1 = g) ∧
    ((GameLogic2.solveGridS g).1 = false → (GameLogic2.solveGridS g).2 = g) := by
  refine ⟨GameLogic1.countSolutionsF_snd _ _ _, ?_, ?_⟩
  · exact GameLogic1.generateSolutionF_false tape _ k g
  · exact GameLogic2.solveGridF_false _ g

/-- A concrete unsolvable grid: row 0 holds colors 0..7 in columns 1..8,
cell (1,0) holds color 8, and cell (0,0) admits no legal color. -/
def stuckGrid : Grid := fun r c =>
  if r.val = 0 ∧ c.val ≠ 0 then ⟨some ⟨c.val - 1, by omega⟩, false⟩
  else if r.val = 1 ∧ c.val = 0 then ⟨some 8, false⟩
  else ⟨none, false⟩

/-- Witness for claim C5: a failing solve run on a concrete grid leaves it
unchanged. -/
theorem search_restores_grid_witness :
    (GameLogic1.generateSolutionS (fun _ => 0) 0 stuckGrid).1 = false ∧
    (GameLogic1.generateSolutionS (fun _ => 0) 0 stuckGrid).2.1 = stuckGrid ∧
    (GameLogic2.solveGridS stuckGrid).1 = false ∧
    (GameLogic2.solveGridS stuckGrid).2 = stuckGrid ∧
    (GameLogic1.countSolutionsS stuckGrid 2).2 = stuckGrid := by
  have h := search_restores_grid stuckGrid 2 (fun _ => 0) 0
  have h1 : (GameLogic1.generateSolutionS (fun _ => 0) 0 stuckGrid).1 = false := by
    decide
  have h2 : (GameLogic2.solveGridS stuckGrid).1 = false := by decide
  exact ⟨h1, h.2.1 h1, h2, h.2.2 h2, h.1⟩

/-- Claim C6: for every difficulty and every outcome of the random source,
the number of empty cells of the generated grid is at most the difficulty's
target, and the targets are 40, 50, 60 for easy, medium, hard. -/
theorem generatePuzzle_removed_le (d : Difficulty) (tape : Nat → Nat) :
    numEmpty (GameLogic1.generatePuzzle d tape) ≤ cellsToRemove d ∧
      cellsToRemove .easy = 40 ∧ cellsToRemove .medium = 50 ∧
      cellsToRemove .hard = 60 :=
  ⟨GameLogic1.generatePuzzle_numEmpty_le d tape, rfl, rfl, rfl⟩

/-- Claim C8: every grid either generator returns satisfies the invariant
that fixed cells are filled, and the player-facing operations (cell
selection, color placement, help-solve) and the counting solver's
state-restoring run preserve it. -/
theorem fixed_invariant_everywhere :
    (∀ (d : Difficulty) (tape : Nat → Nat),
      FixedInv (GameLogic1.generatePuzzle d tape)) ∧
    (∀ (d : Difficulty) (tape : Nat → Nat),
      FixedInv (GameLogic2.generatePuzzle d tape)) ∧
    (∀ (s : UIOps.UIState) (op : UIOps.PlayerOp), FixedInv s.grid →
      FixedInv (UIOps.applyOp s op).grid) ∧
    (∀ (g : Grid) (l : Nat), FixedInv g →
      FixedInv (GameLogic1.countSolutionsS g l).2) := by
  refine ⟨?_, GameLogic2.generatePuzzle2_fixedInv,
    fun s op h => (UIOps.applyOp_fixed s op h).1, ?_⟩
  · intro d tape
    obtain ⟨⟨_, _, hfix⟩, _⟩ := GameLogic1.generatePuzzle_inv d tape
    intro r c hf
    exact (hfix r c).mp hf
  · intro g l h
    rw [GameLogic1.countSolutionsS, GameLogic1.countSolutionsF_snd]
    exact h

/-- Witness for claim C8 at a concrete state. -/
theorem fixed_invariant_witness :
    FixedInv badGrid ∧
    FixedInv (UIOps.applyOp ⟨badGrid, none⟩ (UIOps.PlayerOp.color 3)).grid ∧
    FixedInv (GameLogic1.countSolutionsS badGrid 2).2 :=
  ⟨by decide,
    fixed_invariant_everywhere.2.2.1 ⟨badGrid, none⟩
      (UIOps.PlayerOp.color 3) (by decide),
    fixed_invariant_everywhere.2.2.2 badGrid 2 (by decide)⟩

/-- Claim C9: in a grid satisfying the cell invariant, no sequence of
player operations (cell selection, color placement, help-solve) changes the
value or the fixed flag of a cell with `isFixed = true`. -/
theorem fixed_cells_immutable (ops : List UIOps.PlayerOp) (s : UIOps.UIState)
    (hinv : FixedInv s.grid) (r c : Fin 9)
    (hfix : (s.grid r c).isFixed = true) :
    (UIOps.applyOps s ops).grid r c = s.grid r c :=
  (UIOps.applyOps_fixed ops s hinv).2 r c hfix

/-- Witness for claim C9: a concrete operation sequence on a concrete
grid. -/
theorem fixed_cells_immutable_witness :
    FixedInv badGrid ∧ (badGrid 0 0).isFixed = true ∧
    (UIOps.applyOps ⟨badGrid, none⟩
      [UIOps.PlayerOp.select 0 0, UIOps.PlayerOp.color 5,
        UIOps.PlayerOp.solveHelp]).grid 0 0 = badGrid 0 0 :=
  ⟨by decide, by decide,
    fixed_cells_immutable _ ⟨badGrid, none⟩ (by decide) 0 0 (by decide)⟩

/-- Claim C10: the counting solver returns 1 on every grid with zero empty
cells, and `hasUniqueSolution` returns true there, with no row, column or
box constraint checked — a filled grid counts as one solution even when it
violates the constraints (see the witness at the all-zeros grid). -/
theorem full_grid_counts_one (g : Grid) (l : Nat) (hfull : numEmpty g = 0) :
    GameLogic1.countSolutions g l = 1 ∧
      GameLogic2.hasUniqueSolution g = true := by
  have hfind : GameLogic1.findEmptyCell g = none := by
    rw [findEmptyCell_eq_none_iff]
    rw [numEmpty_eq_zero_iff] at hfull
    exact hfull
  constructor
  · rw [GameLogic1.countSolutions, GameLogic1.countSolutionsS, hfull,
      GameLogic1.countSolutionsF, hfind]
  · rw [GameLogic2.hasUniqueSolution, hfull, GameLogic2.findSolutionsF,
      GameLogic2.findEmptyCell_eq, hfind]
    simp

/-- Witness for claim C10 at the all-zeros (constraint-violating) filled
grid. -/
theorem full_grid_counts_one_witness :
    numEmpty badGrid = 0 ∧ ¬ SolvedGrid badGrid ∧
      GameLogic1.countSolutions badGrid 2 = 1 ∧
      GameLogic2.hasUniqueSolution badGrid = true :=
  ⟨by decide, by decide,
    (full_grid_counts_one badGrid 2 (by decide)).1,
    (full_grid_counts_one badGrid 2 (by decide)).2⟩
